import Mathlib

/-!  A verification model of the RedirFS path registration layer
(`src/redirfs/rfs_path.c`): the path registry with its include and exclude
filter chains, the path id allocator, and the rename propagation
algorithm.  The filter-chain algebra (`rfs_chain.c`), the root aggregates
(`rfs_root.c`) and the per-entry cache records (`rfs_info` and friends)
are external collaborators that are not part of the sources; their
behaviour is modelled from the specification, with allocation and
collaborator failures injected through an explicit environment.  -/

/-- Error codes returned by the C functions (negated errno values in C). -/
inductive Err
  | EINVAL | EEXIST | ENOMEM | EBUSY | ENODATA | ENOENT | ENAMETOOLONG | EXTFAIL
  deriving DecidableEq, Repr

/-- Failure injection for allocations and for the calls into the external
collaborators (root aggregate updates, subtree walks, per-entry cache
records).  A `true` or `none` field means the corresponding call succeeds;
an `Option Err` field carries the error the external call returns. -/
structure Env where
  pathAlloc : Bool
  chainAlloc : Bool
  infoAlloc : Bool
  getPathsAlloc : Bool
  pathsRootAlloc : Bool
  rootAddErr : Option Err
  addDirsErr : Option Err
  rootAddIncErr : Option Err
  rootAddExcErr : Option Err
  rootRemIncErr : Option Err
  rootRemExcErr : Option Err
  rootRemFltErr : Option Err
  rootAddFltErr : Option Err
  walkRemErr : Option Err
  walkAddErr : Option Err
  infoRemErr : Option Err
  infoAddErr : Option Err
  infoSetErr : Option Err
  infoResetErr : Option Err
  deriving DecidableEq, Repr

/-- Environment in which every allocation and every external call succeeds. -/
def envOK : Env :=
  ⟨true, true, true, true, true, none, none, none, none, none, none, none,
   none, none, none, none, none, none, none⟩

/-! ## Filter chains

Modelled from the spec: a `FilterChain` is an immutable ordered,
deduplicated list of filter handles; emptiness is represented by the
distinguished value "no chain" (a NULL `struct rfs_chain` pointer),
modelled as `none`, never as an empty list. -/

/-- Filter handles are opaque identities. -/
abbrev Chain := List Nat

/-- Filter list held by a possibly absent chain (`none` holds no filters). -/
def chainList : Option Chain → List Nat
  | none => []
  | some l => l

/-- Modelled from the spec: helper loop of `rfs_chain_find`, walking the
chain accumulating the index. -/
def rfs_chain_find_go (f : Nat) : List Nat → Int → Int
  | [], _ => -1
  | x :: xs, i => if x = f then i else rfs_chain_find_go f xs (i + 1)

/-- Modelled from the spec: `find(chain, filter)` returns the index of the
filter in the chain, or -1 when the filter is not a member
(`rfs_chain.c` is not among the sources; section 4.1 of the spec). -/
def rfs_chain_find (c : Option Chain) (f : Nat) : Int :=
  rfs_chain_find_go f (chainList c) 0

/-- Modelled from the spec: `add(chain, filter)` appends the filter at the
tail of a new chain, preserving all existing order (callers pre-check
membership; allocation failure is injected at the call sites). -/
def rfs_chain_add (c : Option Chain) (f : Nat) : Option Chain :=
  some (chainList c ++ [f])

/-- Modelled from the spec: `remove(chain, filter)` fails with `NotFound`
when the filter is absent, and the result is the distinguished empty value
when the removed element was the last one. -/
def rfs_chain_rem (c : Option Chain) (f : Nat) : Except Err (Option Chain) :=
  if f ∈ chainList c then
    match (chainList c).erase f with
    | [] => .ok none
    | l => .ok (some l)
  else .error .ENOENT

/-- Modelled from the spec: `diff(chain_a, chain_b)` keeps the members of
the first chain that are not members of the second, preserving the first
chain's order; an empty difference is the distinguished empty value. -/
def rfs_chain_diff (a b : Option Chain) : Option Chain :=
  match (chainList a).filter (fun f => !((chainList b).contains f)) with
  | [] => none
  | l => some l

/-- Modelled from the spec: acquiring a chain reference returns the same
chain (reference counts are not observable in this model). -/
def rfs_chain_get (c : Option Chain) : Option Chain := c

/-- Set difference on filter lists, in the words of the spec: the members
of `a` that are not members of `b`, in the order of `a`. -/
def specDiff (a b : List Nat) : List Nat :=
  a.filter (fun f => !(b.contains f))

/-! ## The path registry (`rfs_path.c`) -/

/-- One registration record (`struct rfs_path`): the mount and entry
identities, the assigned id, and the include and exclude chains.
Reference counts and the root back pointer live in external collaborators
and are not part of the registry model. -/
structure RfsPath where
  id : Nat
  mnt : Nat
  dentry : Nat
  rinch : Option Chain
  rexch : Option Chain
  deriving DecidableEq, Repr

/-- Registry state: `rfs_path_list` in list order, together with the
`paths_nr` counter of every filter (a field of the filter object in C). -/
structure RState where
  paths : List RfsPath
  pathsNr : Nat → Int

/-- Key comparison used by `rfs_path_find`: same mount and same entry. -/
def pathKeyEq (p : RfsPath) (mnt dentry : Nat) : Bool :=
  p.mnt == mnt && p.dentry == dentry

/-- Translation of `rfs_path_find`: first list entry with the given mount
and entry identities. -/
def rfs_path_find (s : RState) (mnt dentry : Nat) : Option RfsPath :=
  s.paths.find? (fun p => pathKeyEq p mnt dentry)

/-- Translation of `rfs_path_find_id`: first list entry with the given id. -/
def rfs_path_find_id (s : RState) (i : Nat) : Option RfsPath :=
  s.paths.find? (fun p => p.id == i)

/-- Translation of the loop body of `rfs_path_get_id`: one pass over
`rfs_path_list`; on a match `i` is incremented and the scan continues with
the NEXT list entry (the C `continue` re-enters the inner list loop, it
does not restart the scan from the head of the list). -/
def rfs_path_get_id_go : List RfsPath → Nat → Nat
  | [], i => i
  | p :: ps, i =>
      if p.id = i then rfs_path_get_id_go ps (i + 1) else rfs_path_get_id_go ps i

/-- Translation of `rfs_path_get_id`.  The outer `while (i < INT_MAX)`
always returns after its first iteration, because the inner list walk
terminates and is followed by `return i`; ids stay far below `INT_MAX`,
so the `-EBUSY` tail is unreachable and is not modelled. -/
def rfs_path_get_id (s : RState) : Nat :=
  rfs_path_get_id_go s.paths 0

/-- Translation of `rfs_path_alloc` combined with the id assignment of
`rfs_path_add`: a fresh record with both chains absent. -/
def rfs_path_alloc (mnt dentry i : Nat) : RfsPath :=
  ⟨i, mnt, dentry, none, none⟩

/-- Translation of `rfs_path_add`: find-or-create the record for the
(mount, entry) pair.  Allocation failure (`-ENOMEM`) and the failure of
`rfs_root_add` inside `rfs_path_add_rroot` come from the environment; a
created record is appended at the tail of the list. -/
def rfs_path_add (e : Env) (s : RState) (mnt dentry : Nat) :
    Except Err (RfsPath × RState) :=
  match rfs_path_find s mnt dentry with
  | some rpath => .ok (rpath, s)
  | none =>
    let i := rfs_path_get_id s
    if !e.pathAlloc then .error .ENOMEM
    else
      match e.rootAddErr with
      | some err => .error err
      | none =>
        let rpath := rfs_path_alloc mnt dentry i
        .ok (rpath, { s with paths := s.paths ++ [rpath] })

/-- Translation of `rfs_path_rem` acting on the registry list: the record
is unlinked only when both of its chains are the distinguished empty
value (the root detach `rfs_path_rem_rroot` is external). -/
def rfs_path_rem (s : RState) (rpath : RfsPath) : RState :=
  if rpath.rinch.isSome || rpath.rexch.isSome then s
  else { s with paths := s.paths.eraseP (fun q => pathKeyEq q rpath.mnt rpath.dentry) }

/-- In-place mutation of the found record, modelled as rewriting the list
entries carrying the record's key. -/
def rfs_path_update (s : RState) (p : RfsPath) : RState :=
  { s with paths := s.paths.map (fun q => if pathKeyEq q p.mnt p.dentry then p else q) }

/-- Translation of `rfs_path_add_dirs`: the per-inode identity cache check
and the `rfs_dcache_walk` subtree seeding are external; only the outcome
is modelled. -/
def rfs_path_add_dirs (e : Env) : Except Err Unit :=
  match e.addDirsErr with
  | some err => .error err
  | none => .ok ()

/-- Translation of `rfs_path_add_include`, acting on the record and on the
filter's `paths_nr` counter.  Order of the C function: no-op success if
already a member of the include chain, `-EEXIST` if a member of the
exclude chain, then `rfs_path_add_dirs`, then `rfs_chain_add`, then
`rfs_root_add_include`; only then is the new chain published and the
counter incremented. -/
def rfs_path_add_include (e : Env) (rpath : RfsPath) (rflt : Nat) (nr : Int) :
    Except Err (RfsPath × Int) :=
  if rfs_chain_find rpath.rinch rflt ≠ -1 then .ok (rpath, nr)
  else if rfs_chain_find rpath.rexch rflt ≠ -1 then .error .EEXIST
  else
    match rfs_path_add_dirs e with
    | .error err => .error err
    | .ok _ =>
      if !e.chainAlloc then .error .ENOMEM
      else
        let rinch := rfs_chain_add rpath.rinch rflt
        match e.rootAddIncErr with
        | some err => .error err
        | none => .ok ({ rpath with rinch := rinch }, nr + 1)

/-- Translation of `rfs_path_add_exclude` (no `rfs_path_add_dirs` call on
this side, exactly as in the C function). -/
def rfs_path_add_exclude (e : Env) (rpath : RfsPath) (rflt : Nat) (nr : Int) :
    Except Err (RfsPath × Int) :=
  if rfs_chain_find rpath.rexch rflt ≠ -1 then .ok (rpath, nr)
  else if rfs_chain_find rpath.rinch rflt ≠ -1 then .error .EEXIST
  else
    if !e.chainAlloc then .error .ENOMEM
    else
      let rexch := rfs_chain_add rpath.rexch rflt
      match e.rootAddExcErr with
      | some err => .error err
      | none => .ok ({ rpath with rexch := rexch }, nr + 1)

/-- Translation of `rfs_path_rem_include`: no-op success when the filter
is not a member, otherwise `rfs_chain_rem`, then `rfs_root_rem_include`,
then publication and counter decrement. -/
def rfs_path_rem_include (e : Env) (rpath : RfsPath) (rflt : Nat) (nr : Int) :
    Except Err (RfsPath × Int) :=
  if rfs_chain_find rpath.rinch rflt = -1 then .ok (rpath, nr)
  else
    if !e.chainAlloc then .error .ENOMEM
    else
      match rfs_chain_rem rpath.rinch rflt with
      | .error err => .error err
      | .ok rinch =>
        match e.rootRemIncErr with
        | some err => .error err
        | none => .ok ({ rpath with rinch := rinch }, nr - 1)

/-- Translation of `rfs_path_rem_exclude`. -/
def rfs_path_rem_exclude (e : Env) (rpath : RfsPath) (rflt : Nat) (nr : Int) :
    Except Err (RfsPath × Int) :=
  if rfs_chain_find rpath.rexch rflt = -1 then .ok (rpath, nr)
  else
    if !e.chainAlloc then .error .ENOMEM
    else
      match rfs_chain_rem rpath.rexch rflt with
      | .error err => .error err
      | .ok rexch =>
        match e.rootRemExcErr with
        | some err => .error err
        | none => .ok ({ rpath with rexch := rexch }, nr - 1)

def REDIRFS_PATH_INCLUDE : Nat := 1
def REDIRFS_PATH_EXCLUDE : Nat := 2

/-- Write the record and the filter counter produced by one of the four
chain mutators back into the registry state. -/
def rfs_path_publish (s : RState) (rflt : Nat) (rpath : RfsPath) (nr : Int) : RState :=
  let s1 := rfs_path_update s rpath
  { s1 with pathsNr := fun g => if g = rflt then nr else s1.pathsNr g }

/-- Translation of `redirfs_add_path`.  NULL argument checks do not arise
in the model (handles are plain identities); `info->flags == 0` and an
unknown flags value map to `-EINVAL` as in C.  `rfs_path_rem` runs before
the error check, exactly as in the source, so a record created by a
failing call is unlinked again (its chains are still both absent), while
an error on a pre-existing record leaves it in place. -/
def redirfs_add_path (e : Env) (s : RState) (filter mnt dentry flags : Nat) :
    Except Err RfsPath × RState :=
  if flags = 0 then (.error .EINVAL, s)
  else
    match rfs_path_add e s mnt dentry with
    | .error err => (.error err, s)
    | .ok (rpath, s1) =>
      let r :=
        if flags = REDIRFS_PATH_INCLUDE then
          rfs_path_add_include e rpath filter (s1.pathsNr filter)
        else if flags = REDIRFS_PATH_EXCLUDE then
          rfs_path_add_exclude e rpath filter (s1.pathsNr filter)
        else .error .EINVAL
      match r with
      | .ok (rpath', nr') =>
        let s2 := rfs_path_publish s1 filter rpath' nr'
        (.ok rpath', rfs_path_rem s2 rpath')
      | .error err => (.error err, rfs_path_rem s1 rpath)

/-- Translation of `redirfs_rem_path`.  The C function receives the record
by pointer; the model addresses it by its (mount, entry) key, which
identifies it uniquely while registered (a stale handle to an already
unlinked record is outside the model).  `rfs_path_rem` runs regardless of
the outcome, as in the source. -/
def redirfs_rem_path (e : Env) (s : RState) (filter mnt dentry : Nat) :
    Except Err Unit × RState :=
  match rfs_path_find s mnt dentry with
  | none => (.error .EINVAL, s)
  | some rpath =>
    let r :=
      if rfs_chain_find rpath.rinch filter ≠ -1 then
        rfs_path_rem_include e rpath filter (s.pathsNr filter)
      else if rfs_chain_find rpath.rexch filter ≠ -1 then
        rfs_path_rem_exclude e rpath filter (s.pathsNr filter)
      else .error .EINVAL
    match r with
    | .ok (rpath', nr') =>
      let s2 := rfs_path_publish s filter rpath' nr'
      (.ok (), rfs_path_rem s2 rpath')
    | .error err => (.error err, rfs_path_rem s rpath)

/-- Translation of `redirfs_get_paths`: snapshot of every record whose
include or exclude chain holds the filter, in list order; the snapshot
buffer allocation can fail with `-ENOMEM`. -/
def redirfs_get_paths (e : Env) (s : RState) (filter : Nat) :
    Except Err (List RfsPath) :=
  if !e.getPathsAlloc then .error .ENOMEM
  else
    .ok (s.paths.filter (fun p =>
      if rfs_chain_find p.rinch filter ≠ -1 then true
      else if rfs_chain_find p.rexch filter ≠ -1 then true
      else false))

/-- Translation of the removal loop of `redirfs_rem_paths`.  The third
argument carries the C local variable `rv`: `none` models the declared
but never assigned value (`int rv;`), which is what the function returns
when the snapshot is empty. -/
def redirfs_rem_paths_go (e : Env) (filter : Nat) :
    List RfsPath → RState → Option (Except Err Unit) →
    Option (Except Err Unit) × RState
  | [], s, rv => (rv, s)
  | p :: ps, s, _ =>
    match redirfs_rem_path e s filter p.mnt p.dentry with
    | (.error err, s') => (some (.error err), s')
    | (.ok _, s') => redirfs_rem_paths_go e filter ps s' (some (.ok ()))

/-- Translation of `redirfs_rem_paths`: snapshot, then remove until the
first failure.  A result of `none` is the uninitialized `rv` being
returned. -/
def redirfs_rem_paths (e : Env) (s : RState) (filter : Nat) :
    Option (Except Err Unit) × RState :=
  match redirfs_get_paths e s filter with
  | .error err => (some (.error err), s)
  | .ok paths => redirfs_rem_paths_go e filter paths s none

/-- Root aggregate view used by `redirfs_get_paths_root`: the merged
include and exclude chains of the root and the live list of its records
(`rroot->rinch`, `rroot->rexch`, `rroot->rpaths`). -/
structure RfsRootPaths where
  rinch : Option Chain
  rexch : Option Chain
  rpaths : List RfsPath
  deriving DecidableEq, Repr

/-- Translation of `redirfs_get_paths_root`.  The loop tests
`rroot->rinch` and `rroot->rexch` — the root's merged chains — for every
record, not the record's own chains, so the condition does not depend on
the record being visited. -/
def redirfs_get_paths_root (e : Env) (filter : Nat) (rroot : RfsRootPaths) :
    Except Err (List RfsPath) :=
  if !e.pathsRootAlloc then .error .ENOMEM
  else
    .ok (rroot.rpaths.filter (fun _rpath =>
      if rfs_chain_find rroot.rinch filter ≠ -1 then true
      else if rfs_chain_find rroot.rexch filter ≠ -1 then true
      else false))

/-! ## Rename propagation (`rfs_fsrename` and its phases)

The rename code reads the per-inode identity cache (`rfs_inode_find`),
the per-dentry cache (`rfs_dentry_find`) and the root aggregates, and
mutates state only through external collaborator calls
(`rfs_root_rem_flt`, `rfs_root_walk`, `rfs_info_rem`, `rfs_info_set`,
`rfs_root_add_flt`, `rfs_info_add`, `rfs_info_reset`).  Those calls are
recorded as a trace of events; the collaborators themselves are outside
the sources. -/

/-- One external collaborator call made during rename propagation. -/
inductive REv
  | rootRemFlt (r : Nat) (f : Nat)
  | walkRem (f : Nat)
  | infoRem (d : Nat) (c : Option Chain) (f : Nat)
  | infoSet (d : Nat) (c : Option Chain) (f : Nat)
  | rootAddFlt (r : Nat) (f : Nat)
  | walkAdd (f : Nat)
  | infoAdd (d : Nat) (c : Option Chain) (f : Nat)
  | infoReset (r : Nat) (d : Nat)
  deriving DecidableEq, Repr

/-- A root aggregate as the rename code sees it: its pointer identity,
its own root entry (`rroot->dentry`) and its resolved effective chain
(`rroot->rinfo->rchain`). -/
structure RfsRootR where
  ptr : Nat
  dentry : Nat
  rchain : Option Chain
  deriving DecidableEq, Repr

/-- A resolved-chain cache record (`struct rfs_info`): the effective chain
and the owning root aggregate. -/
structure RfsInfoR where
  rchain : Option Chain
  rroot : RfsRootR
  deriving DecidableEq, Repr

/-- Per-inode identity cache record (`struct rfs_inode`), reduced to the
field the rename code reads. -/
structure RfsInodeR where
  rinfo : RfsInfoR
  deriving DecidableEq, Repr

/-- Per-dentry cache record (`struct rfs_dentry`), reduced to the field
the rename code reads. -/
structure RfsDentryR where
  rinfo : RfsInfoR
  deriving DecidableEq, Repr

/-- Read-only state the rename code consults: the per-inode and per-dentry
identity caches, keyed by inode and dentry identity. -/
structure RenSt where
  inodes : List (Nat × RfsInodeR)
  dentries : List (Nat × RfsDentryR)
  deriving DecidableEq, Repr

/-- Translation of `rfs_inode_find`: lookup in the per-inode identity
cache, `none` for an inode that was never seen. -/
def rfs_inode_find (st : RenSt) (i : Nat) : Option RfsInodeR :=
  (st.inodes.find? (fun q => q.1 == i)).map Prod.snd

/-- Translation of `rfs_dentry_find`: lookup in the per-dentry cache. -/
def rfs_dentry_find (st : RenSt) (d : Nat) : Option RfsDentryR :=
  (st.dentries.find? (fun q => q.1 == d)).map Prod.snd

/-- Pointer comparison of the two optional root aggregates
(`rroot_src == rroot_dst` in C compares the object pointers). -/
def rootPtrEq (a b : Option RfsRootR) : Bool :=
  match a, b with
  | none, none => true
  | some x, some y => x.ptr == y.ptr
  | _, _ => false

/-- Effective chain of an optional root aggregate. -/
def optRootChain : Option RfsRootR → Option Chain
  | none => none
  | some r => r.rchain

/-- Destination root computed by `rfs_fsrename` from the new parent's
cache record: the owning root when the record carries a chain, `none`
otherwise. -/
def dstRootOf (rinode : RfsInodeR) : Option RfsRootR :=
  if rinode.rinfo.rchain.isSome then some rinode.rinfo.rroot else none

/-- Source root computed by `rfs_fsrename` from the moved entry's cache
record. -/
def renameSrcRoot (st : RenSt) (old_dentry : Nat) : Option RfsRootR :=
  match rfs_dentry_find st old_dentry with
  | some rd => if rd.rinfo.rchain.isSome then some rd.rinfo.rroot else none
  | none => none

/-- Translation of the loop of `rfs_fsrename_rem_rroot`: for each filter
of the diff chain, `rfs_root_rem_flt` on the source root, then
`rfs_root_walk` removing the filter from every other subtree mounted
under it. -/
def rfs_fsrename_rem_rroot_go (e : Env) (r : Nat) :
    List Nat → Except Err Unit × List REv
  | [] => (.ok (), [])
  | f :: fs =>
    match e.rootRemFltErr with
    | some err => (.error err, [.rootRemFlt r f])
    | none =>
      match e.walkRemErr with
      | some err => (.error err, [.rootRemFlt r f, .walkRem f])
      | none =>
        match rfs_fsrename_rem_rroot_go e r fs with
        | (rv, tr) => (rv, .rootRemFlt r f :: .walkRem f :: tr)

/-- Translation of `rfs_fsrename_rem_rroot`. -/
def rfs_fsrename_rem_rroot (e : Env) (rroot : RfsRootR) (rchain : Option Chain) :
    Except Err Unit × List REv :=
  rfs_fsrename_rem_rroot_go e rroot.ptr (chainList rchain)

/-- Translation of the loop of `rfs_fsrename_rem_dentry`: the running
chain starts as the source root's effective chain; each step removes one
filter from it (`rfs_chain_rem`), allocates a cache record for the
shrunk chain (`rfs_info_alloc`) and pushes it down the moved subtree
(`rfs_info_rem`). -/
def rfs_fsrename_rem_dentry_go (e : Env) (d : Nat) :
    Option Chain → List Nat → Except Err Unit × List REv
  | _, [] => (.ok (), [])
  | rchrem, f :: fs =>
    if !e.chainAlloc then (.error .ENOMEM, [])
    else
      match rfs_chain_rem rchrem f with
      | .error err => (.error err, [])
      | .ok rchnew =>
        if !e.infoAlloc then (.error .ENOMEM, [])
        else
          match e.infoRemErr with
          | some err => (.error err, [.infoRem d rchnew f])
          | none =>
            match rfs_fsrename_rem_dentry_go e d rchnew fs with
            | (rv, tr) => (rv, .infoRem d rchnew f :: tr)

/-- Translation of `rfs_fsrename_rem_dentry`. -/
def rfs_fsrename_rem_dentry (e : Env) (rroot : RfsRootR) (rchain : Option Chain)
    (d : Nat) : Except Err Unit × List REv :=
  match rchain with
  | none => (.ok (), [])
  | some l => rfs_fsrename_rem_dentry_go e d (rfs_chain_get rroot.rchain) l

/-- Translation of `rfs_fsrename_rem`: nothing to do without a source
root; the chain to detach is the whole source chain when there is no
destination root, the diff otherwise; root scope when the moved entry is
the source root's own entry, subtree scope otherwise. -/
def rfs_fsrename_rem (e : Env) (rroot_src rroot_dst : Option RfsRootR)
    (dentry : Nat) : Except Err Unit × List REv :=
  match rroot_src with
  | none => (.ok (), [])
  | some rsrc =>
    match (match rroot_dst with
      | none => (.ok (rfs_chain_get rsrc.rchain) : Except Err (Option Chain))
      | some rdst =>
        if !e.chainAlloc then .error .ENOMEM
        else .ok (rfs_chain_diff rsrc.rchain rdst.rchain)) with
    | .error err => (.error err, [])
    | .ok rchain =>
      if rsrc.dentry = dentry then rfs_fsrename_rem_rroot e rsrc rchain
      else rfs_fsrename_rem_dentry e rsrc rchain dentry

/-- Translation of the loop of `rfs_fsrename_set`: for every filter of
the moved entry's own chain that the destination chain shares, allocate a
cache record based on the destination root and `rfs_info_set` it. -/
def rfs_fsrename_set_go (e : Env) (d : Nat) (rchain_src rchain_dst : Option Chain) :
    List Nat → Except Err Unit × List REv
  | [] => (.ok (), [])
  | f :: fs =>
    if rfs_chain_find rchain_dst f = -1 then
      rfs_fsrename_set_go e d rchain_src rchain_dst fs
    else
      if !e.infoAlloc then (.error .ENOMEM, [])
      else
        match e.infoSetErr with
        | some err => (.error err, [.infoSet d rchain_src f])
        | none =>
          match rfs_fsrename_set_go e d rchain_src rchain_dst fs with
          | (rv, tr) => (rv, .infoSet d rchain_src f :: tr)

/-- Translation of `rfs_fsrename_set`.  The C loop reads
`rchain_src->rflts_nr` without a NULL check; in the calling context of
`rfs_fsrename` the moved entry's record exists and carries a chain
whenever a source root was derived from it, so the chain is walked
through `chainList`. -/
def rfs_fsrename_set (e : Env) (st : RenSt) (rroot_src rroot_dst : Option RfsRootR)
    (dentry : Nat) : Except Err Unit × List REv :=
  match rroot_src, rroot_dst with
  | some rsrc, some rdst =>
    if rsrc.dentry = dentry then (.ok (), [])
    else
      match rfs_dentry_find st dentry with
      | none => (.ok (), [])
      | some rd =>
        rfs_fsrename_set_go e dentry rd.rinfo.rchain rdst.rchain
          (chainList rd.rinfo.rchain)
  | _, _ => (.ok (), [])

/-- Translation of the loop of `rfs_fsrename_add_rroot`. -/
def rfs_fsrename_add_rroot_go (e : Env) (r : Nat) :
    List Nat → Except Err Unit × List REv
  | [] => (.ok (), [])
  | f :: fs =>
    match e.rootAddFltErr with
    | some err => (.error err, [.rootAddFlt r f])
    | none =>
      match e.walkAddErr with
      | some err => (.error err, [.rootAddFlt r f, .walkAdd f])
      | none =>
        match rfs_fsrename_add_rroot_go e r fs with
        | (rv, tr) => (rv, .rootAddFlt r f :: .walkAdd f :: tr)

/-- Translation of `rfs_fsrename_add_rroot`. -/
def rfs_fsrename_add_rroot (e : Env) (rroot : RfsRootR) (rchain : Option Chain) :
    Except Err Unit × List REv :=
  rfs_fsrename_add_rroot_go e rroot.ptr (chainList rchain)

/-- Translation of the loop of `rfs_fsrename_add_dentry`: the running
chain starts from the moved entry's own record (or absent), each step
adds one filter (`rfs_chain_add`), allocates a cache record for the grown
chain and pushes it down the moved subtree (`rfs_info_add`). -/
def rfs_fsrename_add_dentry_go (e : Env) (d : Nat) :
    Option Chain → List Nat → Except Err Unit × List REv
  | _, [] => (.ok (), [])
  | rchadd, f :: fs =>
    if !e.chainAlloc then (.error .ENOMEM, [])
    else
      if !e.infoAlloc then (.error .ENOMEM, [])
      else
        match e.infoAddErr with
        | some err => (.error err, [.infoAdd d (rfs_chain_add rchadd f) f])
        | none =>
          match rfs_fsrename_add_dentry_go e d (rfs_chain_add rchadd f) fs with
          | (rv, tr) => (rv, .infoAdd d (rfs_chain_add rchadd f) f :: tr)

/-- Translation of `rfs_fsrename_add_dentry`: with no chain to attach,
the moved entry's cache is explicitly reset to the destination root's
defaults; otherwise the per-filter attach loop runs and ends with the
same reset. -/
def rfs_fsrename_add_dentry (e : Env) (st : RenSt) (rroot : RfsRootR)
    (rchain : Option Chain) (d : Nat) : Except Err Unit × List REv :=
  match rchain with
  | none =>
    match e.infoResetErr with
    | some err => (.error err, [.infoReset rroot.ptr d])
    | none => (.ok (), [.infoReset rroot.ptr d])
  | some l =>
    match rfs_fsrename_add_dentry_go e d
      (match rfs_dentry_find st d with
        | some rd => rfs_chain_get rd.rinfo.rchain
        | none => none) l with
    | (.error err, tr) => (.error err, tr)
    | (.ok _, tr) =>
      match e.infoResetErr with
      | some err => (.error err, tr ++ [.infoReset rroot.ptr d])
      | none => (.ok (), tr ++ [.infoReset rroot.ptr d])

/-- Translation of `rfs_fsrename_add`: nothing to do without a
destination root; the chain to attach is the whole destination chain when
there is no source root, the diff otherwise; root scope (on the source
root, as in the C) when the moved entry is the source root's own entry,
subtree scope on the destination root otherwise. -/
def rfs_fsrename_add (e : Env) (st : RenSt) (rroot_src rroot_dst : Option RfsRootR)
    (dentry : Nat) : Except Err Unit × List REv :=
  match rroot_dst with
  | none => (.ok (), [])
  | some rdst =>
    match (match rroot_src with
      | none => (.ok (rfs_chain_get rdst.rchain) : Except Err (Option Chain))
      | some rsrc =>
        if !e.chainAlloc then .error .ENOMEM
        else .ok (rfs_chain_diff rdst.rchain rsrc.rchain)) with
    | .error err => (.error err, [])
    | .ok rchain =>
      match rroot_src with
      | some rsrc =>
        if rsrc.dentry = dentry then rfs_fsrename_add_rroot e rsrc rchain
        else rfs_fsrename_add_dentry e st rdst rchain dentry
      | none => rfs_fsrename_add_dentry e st rdst rchain dentry

/-- Translation of `rfs_fsrename`.  A result of `none` models the NULL
pointer dereference on the line `if (rinode->rinfo->rchain)`: the C code
never checks `rinode` for NULL (unlike `rdentry`, which is checked two
lines below), so a new parent directory without a per-inode identity
cache record crashes the hook.  On `some (rv, tr)` the hook returns `rv`
after making exactly the external calls in `tr`, in order. -/
def rfs_fsrename (e : Env) (st : RenSt) (old_dir old_dentry new_dir : Nat) :
    Option (Except Err Unit × List REv) :=
  if old_dir = new_dir then some (.ok (), [])
  else
    match rfs_inode_find st new_dir with
    | none => none
    | some rinode =>
      let rroot_dst := dstRootOf rinode
      let rroot_src := renameSrcRoot st old_dentry
      if rootPtrEq rroot_src rroot_dst then some (.ok (), [])
      else
        match rfs_fsrename_rem e rroot_src rroot_dst old_dentry with
        | (.error err, t1) => some (.error err, t1)
        | (.ok _, t1) =>
          match rfs_fsrename_set e st rroot_src rroot_dst old_dentry with
          | (.error err, t2) => some (.error err, t1 ++ t2)
          | (.ok _, t2) =>
            match rfs_fsrename_add e st rroot_src rroot_dst old_dentry with
            | (rv, t3) => some (rv, t1 ++ t2 ++ t3)

/-- Filters detached by a trace: the per-filter removal calls
(`rfs_root_rem_flt` at root scope, `rfs_info_rem` at subtree scope), in
order. -/
def detachedFlts : List REv → List Nat
  | [] => []
  | .rootRemFlt _ f :: t => f :: detachedFlts t
  | .infoRem _ _ f :: t => f :: detachedFlts t
  | _ :: t => detachedFlts t

/-- Filters attached by a trace: the per-filter attach calls
(`rfs_root_add_flt` at root scope, `rfs_info_add` at subtree scope), in
order. -/
def attachedFlts : List REv → List Nat
  | [] => []
  | .rootAddFlt _ f :: t => f :: attachedFlts t
  | .infoAdd _ _ f :: t => f :: attachedFlts t
  | _ :: t => attachedFlts t

/-- Events that belong to the remove phase. -/
def isRemEv : REv → Bool
  | .rootRemFlt _ _ => true
  | .walkRem _ => true
  | .infoRem _ _ _ => true
  | _ => false

/-- Events that belong to the set phase. -/
def isSetEv : REv → Bool
  | .infoSet _ _ _ => true
  | _ => false

/-- Events that belong to the add phase (including the final cache
reset). -/
def isAddEv : REv → Bool
  | .rootAddFlt _ _ => true
  | .walkAdd _ => true
  | .infoAdd _ _ _ => true
  | .infoReset _ _ => true
  | _ => false


/-! ## Registry well-formedness predicates -/

/-- A record whose include and exclude chains share no filter. -/
def ChainsDisjointP (p : RfsPath) : Prop :=
  ∀ f ∈ chainList p.rinch, f ∉ chainList p.rexch

/-- No registered record carries a filter in both chains. -/
def ChainsDisjoint (s : RState) : Prop := ∀ p ∈ s.paths, ChainsDisjointP p

/-- Every registered record still carries at least one chain (maintained
by running `rfs_path_rem` after every mutation). -/
def NoEmptyPath (s : RState) : Prop :=
  ∀ p ∈ s.paths, p.rinch.isSome ∨ p.rexch.isSome

/-- A record cites a filter when either of its chains holds it. -/
def citesB (f : Nat) (p : RfsPath) : Bool :=
  (chainList p.rinch).contains f || (chainList p.rexch).contains f

/-- Number of registered records citing a filter. -/
def citeCount (s : RState) (f : Nat) : Int :=
  ((s.paths.filter (citesB f)).length : Int)

/-- The `paths_nr` counter of every filter equals the number of records
citing it. -/
def NrOK (s : RState) : Prop := ∀ f, s.pathsNr f = citeCount s f

/-- No two registered records share a (mount, entry) key. -/
def KeyUnique (s : RState) : Prop :=
  s.paths.Pairwise (fun p q => p.mnt ≠ q.mnt ∨ p.dentry ≠ q.dentry)

/-! ## Bridging lemmas for the chain algebra -/

theorem rfs_chain_find_go_eq_neg_one {f : Nat} :
    ∀ (l : List Nat) (i : Int), 0 ≤ i →
      (rfs_chain_find_go f l i = -1 ↔ f ∉ l) := by
  intro l
  induction l with
  | nil => intro i _; simp [rfs_chain_find_go]
  | cons x xs ih =>
    intro i hi
    by_cases hx : x = f
    · have hgo : rfs_chain_find_go f (x :: xs) i = i := by
        simp [rfs_chain_find_go, hx]
      rw [hgo]
      constructor
      · intro h; exfalso; omega
      · intro h; exact absurd (List.mem_cons.mpr (Or.inl hx.symm)) h
    · simp only [rfs_chain_find_go, if_neg hx]
      rw [ih (i + 1) (by omega)]
      constructor
      · intro h hmem
        rcases List.mem_cons.mp hmem with h1 | h1
        · exact hx h1.symm
        · exact h h1
      · intro h h1
        exact h (List.mem_cons_of_mem x h1)

theorem rfs_chain_find_eq_neg_one (c : Option Chain) (f : Nat) :
    rfs_chain_find c f = -1 ↔ f ∉ chainList c :=
  rfs_chain_find_go_eq_neg_one (chainList c) 0 (by omega)

theorem rfs_chain_find_ne_neg_one (c : Option Chain) (f : Nat) :
    rfs_chain_find c f ≠ -1 ↔ f ∈ chainList c := by
  rw [Ne, rfs_chain_find_eq_neg_one]
  exact not_not

/-! ## List helper lemmas -/

theorem list_map_id_of {α : Type} (l : List α) (g : α → α)
    (h : ∀ a ∈ l, g a = a) : l.map g = l := by
  induction l with
  | nil => rfl
  | cons a t ih =>
    rw [List.map_cons, h a (List.mem_cons_self a t),
      ih (fun b hb => h b (List.mem_cons_of_mem a hb))]

theorem list_find_decomp {α : Type} (k : α → Bool) :
    ∀ (l : List α) (p : α), l.find? k = some p →
      ∃ l1 l2, l = l1 ++ p :: l2 ∧ (∀ q ∈ l1, k q = false) ∧ k p = true := by
  intro l
  induction l with
  | nil => intro p h; simp [List.find?] at h
  | cons a t ih =>
    intro p h
    by_cases hk : k a = true
    · rw [List.find?_cons_of_pos _ hk] at h
      obtain rfl : a = p := Option.some.inj h
      exact ⟨[], t, rfl, by simp, hk⟩
    · have hk' : k a = false := by simpa using hk
      rw [List.find?_cons_of_neg _ hk] at h
      obtain ⟨l1, l2, rfl, h1, h2⟩ := ih p h
      refine ⟨a :: l1, l2, rfl, ?_, h2⟩
      intro q hq
      rcases List.mem_cons.mp hq with h3 | h3
      · exact h3 ▸ hk'
      · exact h1 q h3

theorem list_eraseP_decomp {α : Type} (k : α → Bool) (l1 l2 : List α) (p : α)
    (h1 : ∀ q ∈ l1, k q = false) (hp : k p = true) :
    (l1 ++ p :: l2).eraseP k = l1 ++ l2 := by
  induction l1 with
  | nil => simp [List.eraseP_cons, hp]
  | cons a t ih =>
    have ha : k a = false := h1 a (List.mem_cons_self a t)
    have ht : ∀ q ∈ t, k q = false := fun q hq => h1 q (List.mem_cons_of_mem a hq)
    simp [List.eraseP_cons, ha, ih ht]

/-! ## Claim C4: id assignment -/

def c4s0 : RState := ⟨[], fun _ => 0⟩
def c4s1 : RState := (redirfs_add_path envOK c4s0 9 1 1 1).2
def c4s2 : RState := (redirfs_add_path envOK c4s1 9 2 2 1).2
def c4s3 : RState := (redirfs_add_path envOK c4s2 9 3 3 1).2
def c4s4 : RState := (redirfs_rem_path envOK c4s3 9 2 2).2
def c4s5 : RState := (redirfs_add_path envOK c4s4 9 4 4 1).2

/-- C4: the single-pass scan of `rfs_path_get_id` does not restart after
incrementing `i`, so it can return an id that is already in use.  Starting
from an empty registry, adding paths (1,1), (2,2), (3,3), removing (2,2)
and adding (4,4) yields the registry id order [0, 2, 1]; the next
allocation returns id 2, which the path (2,2) already carries, while the
smallest unused id is 3.  The subsequent `redirfs_add_path` for the fresh
pair (5,5) registers a second path with id 2. -/
theorem C4_get_id_returns_used_id :
    c4s5.paths.map RfsPath.id = [0, 2, 1] ∧
    rfs_path_get_id c4s5 = 2 ∧
    (c4s5.paths.map RfsPath.id).contains 2 = true ∧
    (c4s5.paths.map RfsPath.id).contains 3 = false ∧
    rfs_path_find (redirfs_add_path envOK c4s5 9 5 5 1).2 5 5 =
      some ⟨2, 5, 5, some [9], none⟩ := by
  refine ⟨rfl, rfl, rfl, rfl, rfl⟩

/-! ## Claim C8: remove_all_paths -/

def c8State : RState := ⟨[⟨0, 1, 1, some [9], none⟩], fun g => if g = 9 then 1 else 0⟩

/-- C8: when a filter cites no path, the snapshot of `redirfs_get_paths`
is empty, the removal loop of `redirfs_rem_paths` never executes, and the
function returns its local variable `rv` which was never assigned
(modelled as `none`): the success the claim promises for the empty case
is not what the code returns. -/
theorem C8_rem_paths_uninitialized_rv :
    redirfs_get_paths envOK c8State 7 = .ok [] ∧
    redirfs_rem_paths envOK c8State 7 = (none, c8State) :=
  ⟨rfl, rfl⟩

/-! ## Claim C9: paths of one root -/

def c9p1 : RfsPath := ⟨0, 10, 11, some [1], none⟩
def c9p2 : RfsPath := ⟨1, 10, 12, some [2], none⟩
def c9Root : RfsRootPaths := ⟨some [1, 2], none, [c9p1, c9p2]⟩

/-- C9: `redirfs_get_paths_root` tests the ROOT's merged chains instead
of each path's own chains, so for a root whose merged include chain holds
filter 1 it returns every path of the root — here also `c9p2`, whose own
chains do not contain filter 1 (contrast `redirfs_get_paths`, which
correctly returns only the citing path). -/
theorem C9_returns_path_not_citing_filter :
    redirfs_get_paths_root envOK 1 c9Root = .ok [c9p1, c9p2] ∧
    rfs_chain_find c9p2.rinch 1 = -1 ∧
    rfs_chain_find c9p2.rexch 1 = -1 ∧
    redirfs_get_paths envOK ⟨[c9p1, c9p2], fun _ => 0⟩ 1 = .ok [c9p1] :=
  ⟨rfl, rfl, rfl, rfl⟩

/-! ## Claim C10: rename with an absent identity-cache record -/

/-- C10: with distinct parent directories and no per-inode identity-cache
record for the new parent, `rfs_fsrename` reads `rinode->rinfo` through
the NULL pointer returned by `rfs_inode_find` (the sibling `rdentry` IS
null-checked two lines below): the hook does not complete and return a
result, modelled by the `none` outcome. -/
theorem C10_rename_null_inode_crash :
    rfs_inode_find ⟨[], []⟩ 1 = none ∧
    rfs_fsrename envOK ⟨[], []⟩ 0 5 1 = none :=
  ⟨rfl, rfl⟩

/-! ## Claim C3: rename between equal effective roots -/

/-- C3 counterexample: parents 3 and 7 are distinct and neither carries a
chain (no cache records at all), so the claim as stated requires success
with no state change; the code instead dereferences the NULL `rinode`
and never returns (`none` in the model). -/
theorem C3_same_region_counterexample :
    rfs_fsrename envOK ⟨[], []⟩ 3 4 7 ≠ some (.ok (), []) := by
  intro h
  rw [show rfs_fsrename envOK ⟨[], []⟩ 3 4 7 = none from rfl] at h
  exact Option.noConfusion h

/-- C3 (amended): provided the two parent directories are the same, or the
new parent has a per-inode identity-cache record, a rename whose source
and destination effective roots are equal returns success and makes no
external mutation call (empty trace, so no registry, path, chain or
cache state changes). -/
theorem C3_equal_roots_noop (e : Env) (st : RenSt) (old_dir old_dentry new_dir : Nat)
    (h : old_dir = new_dir ∨ ∃ ri, rfs_inode_find st new_dir = some ri ∧
      rootPtrEq (renameSrcRoot st old_dentry) (dstRootOf ri) = true) :
    rfs_fsrename e st old_dir old_dentry new_dir = some (.ok (), []) := by
  rcases h with h | ⟨ri, hri, heq⟩
  · simp [rfs_fsrename, h]
  · by_cases hd : old_dir = new_dir
    · simp [rfs_fsrename, hd]
    · simp [rfs_fsrename, hd, hri, heq]

def c3St : RenSt := ⟨[(1, ⟨⟨none, ⟨0, 0, none⟩⟩⟩)], []⟩

/-- C3 witness: a concrete rename between distinct parents whose new
parent has a cache record carrying no chain, and whose moved entry has no
record either; both effective roots are none and the hook is a no-op. -/
theorem C3_equal_roots_noop_witness :
    (∃ ri, rfs_inode_find c3St 1 = some ri ∧
      rootPtrEq (renameSrcRoot c3St 9) (dstRootOf ri) = true) ∧
    rfs_fsrename envOK c3St 0 9 1 = some (.ok (), []) :=
  ⟨⟨⟨⟨none, ⟨0, 0, none⟩⟩⟩, rfl, rfl⟩,
   C3_equal_roots_noop envOK c3St 0 9 1
     (Or.inr ⟨⟨⟨none, ⟨0, 0, none⟩⟩⟩, rfl, rfl⟩)⟩

/-! ## Shape of the four chain mutators on success -/

theorem isSome_of_mem_chainList {c : Option Chain} {f : Nat}
    (h : f ∈ chainList c) : c.isSome := by
  cases c <;> simp [chainList] at h ⊢

theorem chainList_rem_subset {c c' : Option Chain} {f : Nat}
    (h : rfs_chain_rem c f = .ok c') : ∀ g ∈ chainList c', g ∈ chainList c := by
  unfold rfs_chain_rem at h
  by_cases hf : f ∈ chainList c
  · rw [if_pos hf] at h
    intro g hg
    cases herase : (chainList c).erase f with
    | nil =>
      rw [herase] at h
      cases h
      simp [chainList] at hg
    | cons x xs =>
      rw [herase] at h
      cases h
      have hg' : g ∈ (chainList c).erase f := by
        rw [herase]; exact hg
      exact List.mem_of_mem_erase hg'
  · rw [if_neg hf] at h
    cases h

theorem add_include_ok_shape (e : Env) (p : RfsPath) (f : Nat) (nr : Int)
    (p' : RfsPath) (nr' : Int)
    (h : rfs_path_add_include e p f nr = .ok (p', nr')) :
    (p' = p ∧ nr' = nr ∧ f ∈ chainList p.rinch) ∨
    (p' = { p with rinch := rfs_chain_add p.rinch f } ∧ nr' = nr + 1 ∧
      f ∉ chainList p.rinch ∧ f ∉ chainList p.rexch) := by
  unfold rfs_path_add_include at h
  split at h
  · next h1 =>
    simp only [Except.ok.injEq, Prod.mk.injEq] at h
    obtain ⟨h5, h6⟩ := h
    exact Or.inl ⟨h5.symm, h6.symm, (rfs_chain_find_ne_neg_one _ _).mp h1⟩
  · next h1 =>
    split at h
    · cases h
    · next h2 =>
      split at h
      · cases h
      · split at h
        · cases h
        · split at h
          · cases h
          · simp only [Except.ok.injEq, Prod.mk.injEq] at h
            obtain ⟨h5, h6⟩ := h
            refine Or.inr ⟨h5.symm, h6.symm, ?_, ?_⟩
            · exact (rfs_chain_find_eq_neg_one _ _).mp (not_not.mp h1)
            · exact (rfs_chain_find_eq_neg_one _ _).mp (not_not.mp h2)

theorem add_exclude_ok_shape (e : Env) (p : RfsPath) (f : Nat) (nr : Int)
    (p' : RfsPath) (nr' : Int)
    (h : rfs_path_add_exclude e p f nr = .ok (p', nr')) :
    (p' = p ∧ nr' = nr ∧ f ∈ chainList p.rexch) ∨
    (p' = { p with rexch := rfs_chain_add p.rexch f } ∧ nr' = nr + 1 ∧
      f ∉ chainList p.rexch ∧ f ∉ chainList p.rinch) := by
  unfold rfs_path_add_exclude at h
  split at h
  · next h1 =>
    simp only [Except.ok.injEq, Prod.mk.injEq] at h
    obtain ⟨h5, h6⟩ := h
    exact Or.inl ⟨h5.symm, h6.symm, (rfs_chain_find_ne_neg_one _ _).mp h1⟩
  · next h1 =>
    split at h
    · cases h
    · next h2 =>
      split at h
      · cases h
      · split at h
        · cases h
        · simp only [Except.ok.injEq, Prod.mk.injEq] at h
          obtain ⟨h5, h6⟩ := h
          refine Or.inr ⟨h5.symm, h6.symm, ?_, ?_⟩
          · exact (rfs_chain_find_eq_neg_one _ _).mp (not_not.mp h1)
          · exact (rfs_chain_find_eq_neg_one _ _).mp (not_not.mp h2)

theorem rem_include_ok_shape (e : Env) (p : RfsPath) (f : Nat) (nr : Int)
    (p' : RfsPath) (nr' : Int)
    (h : rfs_path_rem_include e p f nr = .ok (p', nr')) :
    (p' = p ∧ nr' = nr ∧ f ∉ chainList p.rinch) ∨
    (∃ c', rfs_chain_rem p.rinch f = .ok c' ∧ p' = { p with rinch := c' } ∧
      nr' = nr - 1 ∧ f ∈ chainList p.rinch) := by
  unfold rfs_path_rem_include at h
  split at h
  · next h1 =>
    simp only [Except.ok.injEq, Prod.mk.injEq] at h
    obtain ⟨h5, h6⟩ := h
    exact Or.inl ⟨h5.symm, h6.symm, (rfs_chain_find_eq_neg_one _ _).mp h1⟩
  · next h1 =>
    have hmem : f ∈ chainList p.rinch := (rfs_chain_find_ne_neg_one _ _).mp h1
    split at h
    · cases h
    · split at h
      · cases h
      · next c' hc' =>
        split at h
        · cases h
        · simp only [Except.ok.injEq, Prod.mk.injEq] at h
          obtain ⟨h5, h6⟩ := h
          exact Or.inr ⟨c', hc', h5.symm, h6.symm, hmem⟩

theorem rem_exclude_ok_shape (e : Env) (p : RfsPath) (f : Nat) (nr : Int)
    (p' : RfsPath) (nr' : Int)
    (h : rfs_path_rem_exclude e p f nr = .ok (p', nr')) :
    (p' = p ∧ nr' = nr ∧ f ∉ chainList p.rexch) ∨
    (∃ c', rfs_chain_rem p.rexch f = .ok c' ∧ p' = { p with rexch := c' } ∧
      nr' = nr - 1 ∧ f ∈ chainList p.rexch) := by
  unfold rfs_path_rem_exclude at h
  split at h
  · next h1 =>
    simp only [Except.ok.injEq, Prod.mk.injEq] at h
    obtain ⟨h5, h6⟩ := h
    exact Or.inl ⟨h5.symm, h6.symm, (rfs_chain_find_eq_neg_one _ _).mp h1⟩
  · next h1 =>
    have hmem : f ∈ chainList p.rexch := (rfs_chain_find_ne_neg_one _ _).mp h1
    split at h
    · cases h
    · split at h
      · cases h
      · next c' hc' =>
        split at h
        · cases h
        · simp only [Except.ok.injEq, Prod.mk.injEq] at h
          obtain ⟨h5, h6⟩ := h
          exact Or.inr ⟨c', hc', h5.symm, h6.symm, hmem⟩

/-! ## Preservation of chain disjointness -/

theorem chainsDisjointP_fresh (mnt dentry i : Nat) :
    ChainsDisjointP (rfs_path_alloc mnt dentry i) := by
  intro f hf
  simp [rfs_path_alloc, chainList] at hf

theorem chainsDisjointP_add_inc {p : RfsPath} {f : Nat}
    (hp : ChainsDisjointP p) (hex : f ∉ chainList p.rexch) :
    ChainsDisjointP { p with rinch := rfs_chain_add p.rinch f } := by
  intro g hg
  simp only [rfs_chain_add, chainList, List.mem_append, List.mem_singleton] at hg
  rcases hg with hg | rfl
  · exact hp g hg
  · exact hex

theorem chainsDisjointP_add_exc {p : RfsPath} {f : Nat}
    (hp : ChainsDisjointP p) (hin : f ∉ chainList p.rinch) :
    ChainsDisjointP { p with rexch := rfs_chain_add p.rexch f } := by
  intro g hg hgc
  simp only [rfs_chain_add, chainList, List.mem_append, List.mem_singleton] at hgc
  rcases hgc with hgc | rfl
  · exact hp g hg hgc
  · exact hin hg

theorem chainsDisjoint_update {s : RState} {p' : RfsPath}
    (hD : ChainsDisjoint s) (hp : ChainsDisjointP p') :
    ChainsDisjoint (rfs_path_update s p') := by
  intro q hq
  simp only [rfs_path_update, List.mem_map] at hq
  obtain ⟨a, ha, hqa⟩ := hq
  by_cases hk : pathKeyEq a p'.mnt p'.dentry
  · rw [if_pos hk] at hqa; exact hqa ▸ hp
  · rw [if_neg hk] at hqa; exact hqa ▸ hD a ha

theorem chainsDisjoint_rem {s : RState} (p : RfsPath) (hD : ChainsDisjoint s) :
    ChainsDisjoint (rfs_path_rem s p) := by
  intro q hq
  unfold rfs_path_rem at hq
  split at hq
  · exact hD q hq
  · exact hD q (List.mem_of_mem_eraseP hq)

theorem chainsDisjoint_append_fresh {s : RState} (hD : ChainsDisjoint s)
    {p : RfsPath} (hp : ChainsDisjointP p) :
    ChainsDisjoint { s with paths := s.paths ++ [p] } := by
  intro q hq
  simp only [List.mem_append, List.mem_singleton] at hq
  rcases hq with hq | rfl
  · exact hD q hq
  · exact hp

theorem rfs_path_add_ok_shape (e : Env) (s : RState) (mnt dentry : Nat)
    (rpath : RfsPath) (s1 : RState)
    (h : rfs_path_add e s mnt dentry = .ok (rpath, s1)) :
    (rfs_path_find s mnt dentry = some rpath ∧ s1 = s) ∨
    (rfs_path_find s mnt dentry = none ∧
      rpath = rfs_path_alloc mnt dentry (rfs_path_get_id s) ∧
      s1 = { s with paths := s.paths ++ [rpath] }) := by
  unfold rfs_path_add at h
  split at h
  · next p heq =>
    simp only [Except.ok.injEq, Prod.mk.injEq] at h
    obtain ⟨h1, h2⟩ := h
    exact Or.inl ⟨h1 ▸ heq, h2.symm⟩
  · next heq =>
    split at h
    · cases h
    · split at h
      · cases h
      · simp only [Except.ok.injEq, Prod.mk.injEq] at h
        obtain ⟨h1, h2⟩ := h
        subst h1
        exact Or.inr ⟨heq, rfl, h2.symm⟩

/-! ## Claim C1: a filter is never in both chains of one path -/

/-- C1: chain disjointness is an invariant of the registration API
(`redirfs_add_path` and `redirfs_rem_path` both preserve it), and an
`add_path` call requesting the mode opposite to the one a filter already
holds on the addressed path fails with `-EEXIST` and leaves the whole
registry — in particular both chains of that path — exactly unchanged. -/
theorem C1_include_exclude_disjoint (e : Env) (s : RState)
    (f mnt dentry flags : Nat) (hD : ChainsDisjoint s) :
    ChainsDisjoint (redirfs_add_path e s f mnt dentry flags).2 ∧
    ChainsDisjoint (redirfs_rem_path e s f mnt dentry).2 ∧
    (∀ p, rfs_path_find s mnt dentry = some p →
      (f ∈ chainList p.rexch →
        redirfs_add_path e s f mnt dentry REDIRFS_PATH_INCLUDE = (.error .EEXIST, s)) ∧
      (f ∈ chainList p.rinch →
        redirfs_add_path e s f mnt dentry REDIRFS_PATH_EXCLUDE = (.error .EEXIST, s))) := by
  refine ⟨?_, ?_, ?_⟩
  · -- add_path preserves disjointness
    unfold redirfs_add_path
    split
    · exact hD
    · split
      · exact hD
      · next rpath s1 heq =>
        have hshape := rfs_path_add_ok_shape e s mnt dentry rpath s1 heq
        have hD1 : ChainsDisjoint s1 := by
          rcases hshape with ⟨_, rfl⟩ | ⟨_, hp, rfl⟩
          · exact hD
          · exact chainsDisjoint_append_fresh hD (hp ▸ chainsDisjointP_fresh mnt dentry _)
        have hpd : ChainsDisjointP rpath := by
          rcases hshape with ⟨hfind, _⟩ | ⟨_, hp, _⟩
          · exact hD rpath (List.mem_of_find?_eq_some hfind)
          · exact hp ▸ chainsDisjointP_fresh mnt dentry _
        by_cases h1 : flags = REDIRFS_PATH_INCLUDE
        · rw [if_pos h1]
          cases hcase : rfs_path_add_include e rpath f (s1.pathsNr f) with
          | ok pr =>
            obtain ⟨p', nr'⟩ := pr
            have hp' : ChainsDisjointP p' := by
              rcases add_include_ok_shape _ _ _ _ _ _ hcase with
                ⟨rfl, _, _⟩ | ⟨rfl, _, _, hnex⟩
              · exact hpd
              · exact chainsDisjointP_add_inc hpd hnex
            simp only [hcase]
            exact chainsDisjoint_rem _ (chainsDisjoint_update hD1 hp')
          | error err =>
            simp only [hcase]
            exact chainsDisjoint_rem _ hD1
        · rw [if_neg h1]
          by_cases h2 : flags = REDIRFS_PATH_EXCLUDE
          · rw [if_pos h2]
            cases hcase : rfs_path_add_exclude e rpath f (s1.pathsNr f) with
            | ok pr =>
              obtain ⟨p', nr'⟩ := pr
              have hp' : ChainsDisjointP p' := by
                rcases add_exclude_ok_shape _ _ _ _ _ _ hcase with
                  ⟨rfl, _, _⟩ | ⟨rfl, _, _, hnin⟩
                · exact hpd
                · exact chainsDisjointP_add_exc hpd hnin
              simp only [hcase]
              exact chainsDisjoint_rem _ (chainsDisjoint_update hD1 hp')
            | error err =>
              simp only [hcase]
              exact chainsDisjoint_rem _ hD1
          · rw [if_neg h2]
            exact chainsDisjoint_rem _ hD1
  · -- rem_path preserves disjointness
    unfold redirfs_rem_path
    split
    · exact hD
    · next rpath heq =>
      have hpd : ChainsDisjointP rpath := hD rpath (List.mem_of_find?_eq_some heq)
      by_cases h1 : rfs_chain_find rpath.rinch f ≠ -1
      · rw [if_pos h1]
        cases hcase : rfs_path_rem_include e rpath f (s.pathsNr f) with
        | ok pr =>
          obtain ⟨p', nr'⟩ := pr
          have hp' : ChainsDisjointP p' := by
            rcases rem_include_ok_shape _ _ _ _ _ _ hcase with
              ⟨rfl, _, _⟩ | ⟨c', hc', rfl, _, _⟩
            · exact hpd
            · exact fun g hg => hpd g (chainList_rem_subset hc' g hg)
          simp only [hcase]
          exact chainsDisjoint_rem _ (chainsDisjoint_update hD hp')
        | error err =>
          simp only [hcase]
          exact chainsDisjoint_rem _ hD
      · rw [if_neg h1]
        by_cases h2 : rfs_chain_find rpath.rexch f ≠ -1
        · rw [if_pos h2]
          cases hcase : rfs_path_rem_exclude e rpath f (s.pathsNr f) with
          | ok pr =>
            obtain ⟨p', nr'⟩ := pr
            have hp' : ChainsDisjointP p' := by
              rcases rem_exclude_ok_shape _ _ _ _ _ _ hcase with
                ⟨rfl, _, _⟩ | ⟨c', hc', rfl, _, _⟩
              · exact hpd
              · exact fun g hg hgc => hpd g hg (chainList_rem_subset hc' g hgc)
            simp only [hcase]
            exact chainsDisjoint_rem _ (chainsDisjoint_update hD hp')
          | error err =>
            simp only [hcase]
            exact chainsDisjoint_rem _ hD
        · rw [if_neg h2]
          exact chainsDisjoint_rem _ hD
  · -- opposite mode fails -EEXIST and changes nothing
    intro p hfind
    have hmem := List.mem_of_find?_eq_some hfind
    have hstep : rfs_path_add e s mnt dentry = .ok (p, s) := by
      unfold rfs_path_add; rw [hfind]
    constructor
    · intro hex
      have hin : f ∉ chainList p.rinch := fun hin => hD p hmem f hin hex
      have hinc : rfs_path_add_include e p f (s.pathsNr f) = .error .EEXIST := by
        unfold rfs_path_add_include
        rw [if_neg (fun hh => hh ((rfs_chain_find_eq_neg_one _ _).mpr hin))]
        rw [if_pos ((rfs_chain_find_ne_neg_one _ _).mpr hex)]
      have hsome : (p.rinch.isSome || p.rexch.isSome) = true := by
        rw [Bool.or_eq_true]; exact Or.inr (isSome_of_mem_chainList hex)
      have hrem : rfs_path_rem s p = s := by
        unfold rfs_path_rem; rw [if_pos hsome]
      simp [redirfs_add_path, REDIRFS_PATH_INCLUDE, REDIRFS_PATH_EXCLUDE,
        hstep, hinc, hrem]
    · intro hin
      have hex : f ∉ chainList p.rexch := hD p hmem f hin
      have hexc : rfs_path_add_exclude e p f (s.pathsNr f) = .error .EEXIST := by
        unfold rfs_path_add_exclude
        rw [if_neg (fun hh => hh ((rfs_chain_find_eq_neg_one _ _).mpr hex))]
        rw [if_pos ((rfs_chain_find_ne_neg_one _ _).mpr hin)]
      have hsome : (p.rinch.isSome || p.rexch.isSome) = true := by
        rw [Bool.or_eq_true]; exact Or.inl (isSome_of_mem_chainList hin)
      have hrem : rfs_path_rem s p = s := by
        unfold rfs_path_rem; rw [if_pos hsome]
      simp [redirfs_add_path, REDIRFS_PATH_INCLUDE, REDIRFS_PATH_EXCLUDE,
        hstep, hexc, hrem]

def c1s : RState := ⟨[⟨0, 1, 1, none, some [3]⟩], fun _ => 1⟩

/-- C1 witness: on a concrete registry where filter 3 sits on path (1,1)'s
exclude chain, requesting Include for filter 3 fails with `-EEXIST` and
leaves the state unchanged. -/
theorem C1_include_exclude_disjoint_witness :
    ChainsDisjoint c1s ∧
    redirfs_add_path envOK c1s 3 1 1 REDIRFS_PATH_INCLUDE = (.error .EEXIST, c1s) := by
  have hD : ChainsDisjoint c1s := by
    unfold ChainsDisjoint ChainsDisjointP
    decide
  exact ⟨hD, ((C1_include_exclude_disjoint envOK c1s 3 1 1 1 hD).2.2
    ⟨0, 1, 1, none, some [3]⟩ rfl).1 (by decide)⟩

/-! ## Claim C6: failing add_path leaves the registry untouched -/

theorem pathKey_false_of_find_none {s : RState} {mnt dentry : Nat}
    (h : rfs_path_find s mnt dentry = none) :
    ∀ q ∈ s.paths, pathKeyEq q mnt dentry = false := by
  intro q hq
  have h2 := List.find?_eq_none.mp h q hq
  simpa using h2

theorem rfs_path_rem_of_cited {s : RState} {p : RfsPath}
    (h : p.rinch.isSome ∨ p.rexch.isSome) : rfs_path_rem s p = s := by
  unfold rfs_path_rem
  rw [if_pos]
  rw [Bool.or_eq_true]
  exact h

theorem rfs_path_rem_fresh {s : RState} {mnt dentry i : Nat}
    (hfind : rfs_path_find s mnt dentry = none) :
    rfs_path_rem { s with paths := s.paths ++ [rfs_path_alloc mnt dentry i] }
      (rfs_path_alloc mnt dentry i) = s := by
  have hkeys := pathKey_false_of_find_none hfind
  have h2 := list_eraseP_decomp (fun q => pathKeyEq q mnt dentry) s.paths []
    (rfs_path_alloc mnt dentry i) hkeys (by simp [pathKeyEq, rfs_path_alloc])
  simp only [List.append_nil] at h2
  unfold rfs_path_rem rfs_path_alloc
  simp only [Option.isSome_none, Bool.or_self, Bool.false_eq_true, if_false]
  rw [show (rfs_path_alloc mnt dentry i : RfsPath) = ⟨i, mnt, dentry, none, none⟩ from rfl] at h2
  simp only [h2]

/-- C6: every failing `redirfs_add_path` call — invalid flags, allocation
failure, chain-algebra failure or root-aggregate update failure at any
internal step — returns the error to the caller and leaves the registry
(list, every published chain, every counter) exactly as it was: on a
well-formed registry (no registered record with both chains empty, which
`rfs_path_rem` maintains) the final state equals the initial state, the
record created by the failing call itself having been unlinked again. -/
theorem C6_add_path_failure_atomic (e : Env) (s : RState)
    (f mnt dentry flags : Nat) (err : Err) (hNE : NoEmptyPath s)
    (h : (redirfs_add_path e s f mnt dentry flags).1 = .error err) :
    (redirfs_add_path e s f mnt dentry flags).2 = s := by
  by_cases h0 : flags = 0
  · simp [redirfs_add_path, h0]
  · cases hadd : rfs_path_add e s mnt dentry with
    | error e2 => simp [redirfs_add_path, h0, hadd]
    | ok pr =>
      obtain ⟨rpath, s1⟩ := pr
      have hshape := rfs_path_add_ok_shape e s mnt dentry rpath s1 hadd
      cases hop : (if flags = REDIRFS_PATH_INCLUDE then
          rfs_path_add_include e rpath f (s1.pathsNr f)
        else if flags = REDIRFS_PATH_EXCLUDE then
          rfs_path_add_exclude e rpath f (s1.pathsNr f)
        else .error .EINVAL) with
      | ok pr' =>
        obtain ⟨p', nr'⟩ := pr'
        simp [redirfs_add_path, h0, hadd, hop] at h
      | error e3 =>
        have hgoal : (redirfs_add_path e s f mnt dentry flags).2 =
            rfs_path_rem s1 rpath := by
          simp [redirfs_add_path, h0, hadd, hop]
        rw [hgoal]
        rcases hshape with ⟨hfind, rfl⟩ | ⟨hfind, hp, rfl⟩
        · exact rfs_path_rem_of_cited (hNE rpath (List.mem_of_find?_eq_some hfind))
        · subst hp
          exact rfs_path_rem_fresh hfind

def c6s : RState := ⟨[⟨0, 1, 1, some [9], none⟩], fun g => if g = 9 then 1 else 0⟩

def c6env : Env :=
  ⟨true, false, true, true, true, none, none, none, none, none, none, none,
   none, none, none, none, none, none, none⟩

/-- C6 witness: with the chain allocation failing, adding filter 7 on the
fresh pair (2,2) fails with `-ENOMEM` and the registry is exactly the
initial one (the freshly created record was unlinked again). -/
theorem C6_add_path_failure_atomic_witness :
    NoEmptyPath c6s ∧
    (redirfs_add_path c6env c6s 7 2 2 REDIRFS_PATH_INCLUDE).1 = .error .ENOMEM ∧
    (redirfs_add_path c6env c6s 7 2 2 REDIRFS_PATH_INCLUDE).2 = c6s := by
  have hNE : NoEmptyPath c6s := by
    unfold NoEmptyPath
    decide
  exact ⟨hNE, rfl, C6_add_path_failure_atomic c6env c6s 7 2 2 1 .ENOMEM hNE rfl⟩

/-! ## Claim C7 infrastructure: counting citations -/

/-- Both chains of a record are duplicate-free (the spec's chain
invariant). -/
def PathNodup (p : RfsPath) : Prop :=
  (chainList p.rinch).Nodup ∧ (chainList p.rexch).Nodup

/-- Every registered record has duplicate-free chains. -/
def ChainsNodup (s : RState) : Prop := ∀ p ∈ s.paths, PathNodup p

theorem pathKeyEq_iff (p : RfsPath) (mnt dentry : Nat) :
    pathKeyEq p mnt dentry = true ↔ p.mnt = mnt ∧ p.dentry = dentry := by
  simp [pathKeyEq]

theorem citesB_true_iff (g : Nat) (p : RfsPath) :
    citesB g p = true ↔ g ∈ chainList p.rinch ∨ g ∈ chainList p.rexch := by
  simp [citesB]

theorem citesB_false_iff (g : Nat) (p : RfsPath) :
    citesB g p = false ↔ g ∉ chainList p.rinch ∧ g ∉ chainList p.rexch := by
  rw [← Bool.not_eq_true, citesB_true_iff]
  tauto

theorem chainList_rem_eq {c c' : Option Chain} {f : Nat}
    (h : rfs_chain_rem c f = .ok c') :
    chainList c' = (chainList c).erase f := by
  unfold rfs_chain_rem at h
  by_cases hf : f ∈ chainList c
  · rw [if_pos hf] at h
    cases herase : (chainList c).erase f with
    | nil => rw [herase] at h; cases h; simp [chainList]
    | cons x xs => rw [herase] at h; cases h; simp [chainList]
  · rw [if_neg hf] at h; cases h

theorem citesB_add_inc_target {p : RfsPath} {f : Nat} :
    citesB f { p with rinch := rfs_chain_add p.rinch f } = true := by
  rw [citesB_true_iff]
  exact Or.inl (by simp [rfs_chain_add, chainList])

theorem citesB_add_exc_target {p : RfsPath} {f : Nat} :
    citesB f { p with rexch := rfs_chain_add p.rexch f } = true := by
  rw [citesB_true_iff]
  exact Or.inr (by simp [rfs_chain_add, chainList])

theorem citesB_add_inc_ne {p : RfsPath} {f g : Nat} (hne : g ≠ f) :
    citesB g { p with rinch := rfs_chain_add p.rinch f } = citesB g p := by
  rw [Bool.eq_iff_iff, citesB_true_iff, citesB_true_iff]
  simp [rfs_chain_add, chainList, hne]

theorem citesB_add_exc_ne {p : RfsPath} {f g : Nat} (hne : g ≠ f) :
    citesB g { p with rexch := rfs_chain_add p.rexch f } = citesB g p := by
  rw [Bool.eq_iff_iff, citesB_true_iff, citesB_true_iff]
  simp [rfs_chain_add, chainList, hne]

theorem citesB_rem_inc_target {p : RfsPath} {f : Nat} {c' : Option Chain}
    (h : rfs_chain_rem p.rinch f = .ok c')
    (hnd : (chainList p.rinch).Nodup) (hex : f ∉ chainList p.rexch) :
    citesB f { p with rinch := c' } = false := by
  rw [citesB_false_iff]
  refine ⟨?_, hex⟩
  rw [show chainList ({ p with rinch := c' } : RfsPath).rinch = chainList c' from rfl,
    chainList_rem_eq h]
  exact hnd.not_mem_erase

theorem citesB_rem_exc_target {p : RfsPath} {f : Nat} {c' : Option Chain}
    (h : rfs_chain_rem p.rexch f = .ok c')
    (hnd : (chainList p.rexch).Nodup) (hin : f ∉ chainList p.rinch) :
    citesB f { p with rexch := c' } = false := by
  rw [citesB_false_iff]
  refine ⟨hin, ?_⟩
  rw [show chainList ({ p with rexch := c' } : RfsPath).rexch = chainList c' from rfl,
    chainList_rem_eq h]
  exact hnd.not_mem_erase

theorem citesB_rem_inc_ne {p : RfsPath} {f g : Nat} {c' : Option Chain}
    (h : rfs_chain_rem p.rinch f = .ok c') (hne : g ≠ f) :
    citesB g { p with rinch := c' } = citesB g p := by
  rw [Bool.eq_iff_iff, citesB_true_iff, citesB_true_iff]
  rw [show chainList ({ p with rinch := c' } : RfsPath).rinch = chainList c' from rfl,
    chainList_rem_eq h]
  rw [List.mem_erase_of_ne hne]

theorem citesB_rem_exc_ne {p : RfsPath} {f g : Nat} {c' : Option Chain}
    (h : rfs_chain_rem p.rexch f = .ok c') (hne : g ≠ f) :
    citesB g { p with rexch := c' } = citesB g p := by
  rw [Bool.eq_iff_iff, citesB_true_iff, citesB_true_iff]
  rw [show chainList ({ p with rexch := c' } : RfsPath).rexch = chainList c' from rfl,
    chainList_rem_eq h]
  rw [List.mem_erase_of_ne hne]

theorem pathNodup_fresh (mnt dentry i : Nat) :
    PathNodup (rfs_path_alloc mnt dentry i) := by
  constructor <;> simp [rfs_path_alloc, chainList]

theorem pathNodup_add_inc {p : RfsPath} {f : Nat}
    (hp : PathNodup p) (hf : f ∉ chainList p.rinch) :
    PathNodup { p with rinch := rfs_chain_add p.rinch f } := by
  refine ⟨?_, hp.2⟩
  rw [show chainList ({ p with rinch := rfs_chain_add p.rinch f } : RfsPath).rinch =
    chainList p.rinch ++ [f] from rfl]
  rw [List.nodup_append]
  refine ⟨hp.1, List.nodup_singleton f, ?_⟩
  intro a ha hamem
  rw [List.mem_singleton] at hamem
  exact hf (hamem ▸ ha)

theorem pathNodup_add_exc {p : RfsPath} {f : Nat}
    (hp : PathNodup p) (hf : f ∉ chainList p.rexch) :
    PathNodup { p with rexch := rfs_chain_add p.rexch f } := by
  refine ⟨hp.1, ?_⟩
  rw [show chainList ({ p with rexch := rfs_chain_add p.rexch f } : RfsPath).rexch =
    chainList p.rexch ++ [f] from rfl]
  rw [List.nodup_append]
  refine ⟨hp.2, List.nodup_singleton f, ?_⟩
  intro a ha hamem
  rw [List.mem_singleton] at hamem
  exact hf (hamem ▸ ha)

theorem pathNodup_rem_inc {p : RfsPath} {f : Nat} {c' : Option Chain}
    (h : rfs_chain_rem p.rinch f = .ok c') (hp : PathNodup p) :
    PathNodup { p with rinch := c' } := by
  refine ⟨?_, hp.2⟩
  rw [show chainList ({ p with rinch := c' } : RfsPath).rinch = chainList c' from rfl,
    chainList_rem_eq h]
  exact hp.1.erase f

theorem pathNodup_rem_exc {p : RfsPath} {f : Nat} {c' : Option Chain}
    (h : rfs_chain_rem p.rexch f = .ok c') (hp : PathNodup p) :
    PathNodup { p with rexch := c' } := by
  refine ⟨hp.1, ?_⟩
  rw [show chainList ({ p with rexch := c' } : RfsPath).rexch = chainList c' from rfl,
    chainList_rem_eq h]
  exact hp.2.erase f

/-! ## State-level lemmas for the counter invariant -/

theorem keyUnique_update (s : RState) (p' : RfsPath) (hK : KeyUnique s) :
    KeyUnique (rfs_path_update s p') := by
  unfold KeyUnique rfs_path_update
  rw [List.pairwise_map]
  refine hK.imp_of_mem ?_
  intro a b _ _ hR
  by_cases hka : pathKeyEq a p'.mnt p'.dentry
  · obtain ⟨ha1, ha2⟩ := (pathKeyEq_iff _ _ _).mp hka
    by_cases hkb : pathKeyEq b p'.mnt p'.dentry
    · obtain ⟨hb1, hb2⟩ := (pathKeyEq_iff _ _ _).mp hkb
      exact absurd hR (by push_neg; exact ⟨ha1.trans hb1.symm, ha2.trans hb2.symm⟩)
    · rw [if_pos hka, if_neg hkb]
      rcases hR with h | h
      · exact Or.inl (ha1 ▸ h)
      · exact Or.inr (ha2 ▸ h)
  · rw [if_neg hka]
    by_cases hkb : pathKeyEq b p'.mnt p'.dentry
    · obtain ⟨hb1, hb2⟩ := (pathKeyEq_iff _ _ _).mp hkb
      rw [if_pos hkb]
      rcases hR with h | h
      · exact Or.inl (hb1 ▸ h)
      · exact Or.inr (hb2 ▸ h)
    · rw [if_neg hkb]; exact hR

theorem keyUnique_rem (s : RState) (p : RfsPath) (hK : KeyUnique s) :
    KeyUnique (rfs_path_rem s p) := by
  unfold rfs_path_rem
  split
  · exact hK
  · exact List.Pairwise.sublist (List.eraseP_sublist _) hK

theorem allPaths_update {P : RfsPath → Prop} {s : RState} {p' : RfsPath}
    (hA : ∀ p ∈ s.paths, P p) (hp : P p') :
    ∀ p ∈ (rfs_path_update s p').paths, P p := by
  intro q hq
  simp only [rfs_path_update, List.mem_map] at hq
  obtain ⟨a, ha, hqa⟩ := hq
  by_cases hk : pathKeyEq a p'.mnt p'.dentry
  · rw [if_pos hk] at hqa; exact hqa ▸ hp
  · rw [if_neg hk] at hqa; exact hqa ▸ hA a ha

theorem allPaths_rem {P : RfsPath → Prop} {s : RState} (p : RfsPath)
    (hA : ∀ q ∈ s.paths, P q) : ∀ q ∈ (rfs_path_rem s p).paths, P q := by
  intro q hq
  unfold rfs_path_rem at hq
  split at hq
  · exact hA q hq
  · exact hA q (List.mem_of_mem_eraseP hq)

theorem allPaths_append {P : RfsPath → Prop} {s : RState} {p : RfsPath}
    (hA : ∀ q ∈ s.paths, P q) (hp : P p) :
    ∀ q ∈ ({ s with paths := s.paths ++ [p] } : RState).paths, P q := by
  intro q hq
  simp only [List.mem_append, List.mem_singleton] at hq
  rcases hq with hq | rfl
  · exact hA q hq
  · exact hp

theorem find_keyUnique_decomp {s : RState} {mnt dentry : Nat} {p : RfsPath}
    (hK : KeyUnique s) (hfind : rfs_path_find s mnt dentry = some p) :
    ∃ l1 l2, s.paths = l1 ++ p :: l2 ∧
      (∀ q ∈ l1, pathKeyEq q mnt dentry = false) ∧
      (∀ q ∈ l2, pathKeyEq q mnt dentry = false) ∧
      pathKeyEq p mnt dentry = true := by
  obtain ⟨l1, l2, hdec, h1, hp⟩ := list_find_decomp _ _ _ hfind
  refine ⟨l1, l2, hdec, h1, ?_, hp⟩
  have hpair : s.paths.Pairwise (fun p q => p.mnt ≠ q.mnt ∨ p.dentry ≠ q.dentry) := hK
  rw [hdec, List.pairwise_append, List.pairwise_cons] at hpair
  obtain ⟨hp1, hp2⟩ := (pathKeyEq_iff _ _ _).mp hp
  intro q hq
  have hR := hpair.2.1.1 q hq
  rw [Bool.eq_false_iff]
  intro hqk
  obtain ⟨hq1, hq2⟩ := (pathKeyEq_iff _ _ _).mp hqk
  rcases hR with h | h
  · exact h (hp1.trans hq1.symm)
  · exact h (hp2.trans hq2.symm)

theorem map_update_decomp (l1 l2 : List RfsPath) (p p' : RfsPath) (mnt dentry : Nat)
    (h1 : ∀ q ∈ l1, pathKeyEq q mnt dentry = false)
    (h2 : ∀ q ∈ l2, pathKeyEq q mnt dentry = false)
    (hp : pathKeyEq p mnt dentry = true) :
    (l1 ++ p :: l2).map (fun q => if pathKeyEq q mnt dentry then p' else q) =
      l1 ++ p' :: l2 := by
  rw [List.map_append, List.map_cons, if_pos hp]
  rw [list_map_id_of l1 _ (fun a ha => if_neg (by simp [h1 a ha]))]
  rw [list_map_id_of l2 _ (fun a ha => if_neg (by simp [h2 a ha]))]

theorem length_filter_middle (g : Nat) (l1 l2 : List RfsPath) (x : RfsPath) :
    ((l1 ++ x :: l2).filter (citesB g)).length =
      (l1.filter (citesB g)).length + (if citesB g x then 1 else 0) +
        (l2.filter (citesB g)).length := by
  rw [List.filter_append, List.filter_cons, List.length_append]
  by_cases hx : citesB g x = true
  · rw [if_pos hx, if_pos hx, List.length_cons]; omega
  · rw [if_neg hx, if_neg hx]; omega

theorem publish_rem_wf (s1 : RState) (f mnt dentry : Nat) (p p' : RfsPath) (nr' : Int)
    (hK : KeyUnique s1) (hN : NrOK s1)
    (hfind : rfs_path_find s1 mnt dentry = some p)
    (hm : p'.mnt = p.mnt) (hd : p'.dentry = p.dentry)
    (hdelta : nr' = s1.pathsNr f + (if citesB f p' then 1 else 0) -
      (if citesB f p then 1 else 0))
    (hg : ∀ g, g ≠ f → citesB g p' = citesB g p) :
    KeyUnique (rfs_path_rem (rfs_path_publish s1 f p' nr') p') ∧
    NrOK (rfs_path_rem (rfs_path_publish s1 f p' nr') p') := by
  obtain ⟨l1, l2, hdec, h1, h2, hpk⟩ := find_keyUnique_decomp hK hfind
  obtain ⟨hpm, hpd⟩ := (pathKeyEq_iff _ _ _).mp hpk
  have hm' : p'.mnt = mnt := hm.trans hpm
  have hd' : p'.dentry = dentry := hd.trans hpd
  have hp'k : pathKeyEq p' mnt dentry = true := (pathKeyEq_iff _ _ _).mpr ⟨hm', hd'⟩
  have hup : (rfs_path_publish s1 f p' nr').paths = l1 ++ p' :: l2 := by
    show s1.paths.map (fun q => if pathKeyEq q p'.mnt p'.dentry then p' else q) =
      l1 ++ p' :: l2
    rw [hm', hd', hdec]
    exact map_update_decomp l1 l2 p p' mnt dentry h1 h2 hpk
  have hN2 : NrOK (rfs_path_publish s1 f p' nr') := by
    intro g
    show (if g = f then nr' else s1.pathsNr g) = _
    unfold citeCount
    rw [hup, length_filter_middle]
    have hbase : s1.pathsNr g =
        (((l1.filter (citesB g)).length + (if citesB g p then 1 else 0) +
          (l2.filter (citesB g)).length : Nat) : Int) := by
      have hb := hN g
      unfold citeCount at hb
      rw [hdec, length_filter_middle] at hb
      exact hb
    by_cases hgf : g = f
    · subst hgf
      rw [if_pos rfl, hdelta, hbase]
      by_cases hc1 : citesB g p = true <;> by_cases hc2 : citesB g p' = true <;>
        simp only [hc1, hc2, if_true, if_false, Bool.false_eq_true, if_neg] <;>
        push_cast <;> omega
    · rw [if_neg hgf, hbase, hg g hgf]
  have hK2 : KeyUnique (rfs_path_publish s1 f p' nr') := keyUnique_update s1 p' hK
  have hrem : rfs_path_rem (rfs_path_publish s1 f p' nr') p' =
      rfs_path_publish s1 f p' nr' ∨
      ((∀ g, citesB g p' = false) ∧
        rfs_path_rem (rfs_path_publish s1 f p' nr') p' =
          { rfs_path_publish s1 f p' nr' with paths := l1 ++ l2 }) := by
    unfold rfs_path_rem
    split
    · exact Or.inl rfl
    · next hcond =>
      have hno : ∀ g, citesB g p' = false := by
        intro g
        rw [citesB_false_iff]
        constructor
        · intro hmem
          exact hcond (by rw [Bool.or_eq_true]
                          exact Or.inl (isSome_of_mem_chainList hmem))
        · intro hmem
          exact hcond (by rw [Bool.or_eq_true]
                          exact Or.inr (isSome_of_mem_chainList hmem))
      refine Or.inr ⟨hno, ?_⟩
      congr 1
      rw [hup, hm', hd']
      exact list_eraseP_decomp _ l1 l2 p' h1 hp'k
  refine ⟨keyUnique_rem _ p' hK2, ?_⟩
  rcases hrem with heq | ⟨hno, heq⟩
  · rw [heq]; exact hN2
  · rw [heq]
    intro g
    have hbase2 := hN2 g
    unfold citeCount at hbase2 ⊢
    rw [hup, length_filter_middle, hno g] at hbase2
    show (rfs_path_publish s1 f p' nr').pathsNr g = _
    rw [show ({ rfs_path_publish s1 f p' nr' with paths := l1 ++ l2 } : RState).paths
      = l1 ++ l2 from rfl]
    rw [List.filter_append, List.length_append]
    simpa using hbase2

theorem citesB_none_of_not_some {p : RfsPath}
    (hcond : ¬(p.rinch.isSome || p.rexch.isSome) = true) :
    ∀ g, citesB g p = false := by
  intro g
  rw [citesB_false_iff]
  constructor
  · intro hmem
    exact hcond (by rw [Bool.or_eq_true]
                    exact Or.inl (isSome_of_mem_chainList hmem))
  · intro hmem
    exact hcond (by rw [Bool.or_eq_true]
                    exact Or.inr (isSome_of_mem_chainList hmem))

theorem rem_found_wf {s : RState} {mnt dentry : Nat} {p : RfsPath}
    (hK : KeyUnique s) (hN : NrOK s)
    (hfind : rfs_path_find s mnt dentry = some p) :
    KeyUnique (rfs_path_rem s p) ∧ NrOK (rfs_path_rem s p) := by
  refine ⟨keyUnique_rem _ p hK, ?_⟩
  obtain ⟨l1, l2, hdec, h1, h2, hpk⟩ := find_keyUnique_decomp hK hfind
  obtain ⟨hpm, hpd⟩ := (pathKeyEq_iff _ _ _).mp hpk
  unfold rfs_path_rem
  split
  · exact hN
  · next hcond =>
    have hno := citesB_none_of_not_some hcond
    intro g
    show s.pathsNr g =
      (((s.paths.eraseP (fun q => pathKeyEq q p.mnt p.dentry)).filter
        (citesB g)).length : Int)
    rw [hpm, hpd, hdec, list_eraseP_decomp _ l1 l2 p h1 hpk]
    have hb := hN g
    unfold citeCount at hb
    rw [hdec, length_filter_middle, hno g] at hb
    rw [List.filter_append, List.length_append]
    simpa using hb

theorem find_append_fresh {s : RState} {mnt dentry i : Nat}
    (hfind : rfs_path_find s mnt dentry = none) :
    rfs_path_find { s with paths := s.paths ++ [rfs_path_alloc mnt dentry i] }
      mnt dentry = some (rfs_path_alloc mnt dentry i) := by
  unfold rfs_path_find at hfind ⊢
  show (s.paths ++ [rfs_path_alloc mnt dentry i]).find?
    (fun p => pathKeyEq p mnt dentry) = some (rfs_path_alloc mnt dentry i)
  rw [List.find?_append, hfind]
  simp [List.find?, pathKeyEq, rfs_path_alloc]

theorem keyUnique_append_fresh {s : RState} {mnt dentry i : Nat}
    (hK : KeyUnique s) (hfind : rfs_path_find s mnt dentry = none) :
    KeyUnique ({ s with paths := s.paths ++ [rfs_path_alloc mnt dentry i] } : RState) := by
  have hkeys := pathKey_false_of_find_none hfind
  unfold KeyUnique
  show (s.paths ++ [rfs_path_alloc mnt dentry i]).Pairwise
    (fun p q => p.mnt ≠ q.mnt ∨ p.dentry ≠ q.dentry)
  rw [List.pairwise_append]
  refine ⟨hK, by simp, ?_⟩
  intro a ha b hb
  rw [List.mem_singleton] at hb
  subst hb
  have hfa := hkeys a ha
  have hfa2 : ¬(a.mnt = mnt ∧ a.dentry = dentry) := by
    intro hc
    rw [(pathKeyEq_iff _ _ _).mpr hc] at hfa
    cases hfa
  rw [not_and_or] at hfa2
  simpa [rfs_path_alloc] using hfa2

theorem nrOK_append_fresh {s : RState} (mnt dentry i : Nat) (hN : NrOK s) :
    NrOK ({ s with paths := s.paths ++ [rfs_path_alloc mnt dentry i] } : RState) := by
  intro g
  show s.pathsNr g =
    (((s.paths ++ [rfs_path_alloc mnt dentry i]).filter (citesB g)).length : Int)
  rw [List.filter_append]
  rw [show ([rfs_path_alloc mnt dentry i].filter (citesB g)) = [] from by
    simp [citesB, rfs_path_alloc, chainList]]
  rw [List.append_nil]
  exact hN g

theorem add_include_tail_wf (e : Env) (s1 : RState) (f mnt dentry : Nat)
    (rpath p' : RfsPath) (nr' : Int)
    (hK1 : KeyUnique s1) (hnd1 : ChainsNodup s1) (hN1 : NrOK s1)
    (hfind1 : rfs_path_find s1 mnt dentry = some rpath)
    (hndp : PathNodup rpath)
    (hop : rfs_path_add_include e rpath f (s1.pathsNr f) = .ok (p', nr')) :
    KeyUnique (rfs_path_rem (rfs_path_publish s1 f p' nr') p') ∧
    ChainsNodup (rfs_path_rem (rfs_path_publish s1 f p' nr') p') ∧
    NrOK (rfs_path_rem (rfs_path_publish s1 f p' nr') p') := by
  rcases add_include_ok_shape _ _ _ _ _ _ hop with ⟨rfl, rfl, hmemf⟩ | ⟨rfl, rfl, hnin, hnex⟩
  · have hwf := publish_rem_wf s1 f mnt dentry p' p' (s1.pathsNr f)
      hK1 hN1 hfind1 rfl rfl
      (by by_cases hc : citesB f p' = true <;> simp [hc])
      (fun g _ => rfl)
    exact ⟨hwf.1, allPaths_rem p' (allPaths_update hnd1 hndp), hwf.2⟩
  · have hfalse : citesB f rpath = false := (citesB_false_iff f rpath).mpr ⟨hnin, hnex⟩
    have hwf := publish_rem_wf s1 f mnt dentry rpath
      { rpath with rinch := rfs_chain_add rpath.rinch f } (s1.pathsNr f + 1)
      hK1 hN1 hfind1 rfl rfl
      (by rw [citesB_add_inc_target, hfalse]; simp)
      (fun g hg => citesB_add_inc_ne hg)
    exact ⟨hwf.1,
      allPaths_rem _ (allPaths_update hnd1 (pathNodup_add_inc hndp hnin)), hwf.2⟩

theorem add_exclude_tail_wf (e : Env) (s1 : RState) (f mnt dentry : Nat)
    (rpath p' : RfsPath) (nr' : Int)
    (hK1 : KeyUnique s1) (hnd1 : ChainsNodup s1) (hN1 : NrOK s1)
    (hfind1 : rfs_path_find s1 mnt dentry = some rpath)
    (hndp : PathNodup rpath)
    (hop : rfs_path_add_exclude e rpath f (s1.pathsNr f) = .ok (p', nr')) :
    KeyUnique (rfs_path_rem (rfs_path_publish s1 f p' nr') p') ∧
    ChainsNodup (rfs_path_rem (rfs_path_publish s1 f p' nr') p') ∧
    NrOK (rfs_path_rem (rfs_path_publish s1 f p' nr') p') := by
  rcases add_exclude_ok_shape _ _ _ _ _ _ hop with ⟨rfl, rfl, hmemf⟩ | ⟨rfl, rfl, hnex, hnin⟩
  · have hwf := publish_rem_wf s1 f mnt dentry p' p' (s1.pathsNr f)
      hK1 hN1 hfind1 rfl rfl
      (by by_cases hc : citesB f p' = true <;> simp [hc])
      (fun g _ => rfl)
    exact ⟨hwf.1, allPaths_rem p' (allPaths_update hnd1 hndp), hwf.2⟩
  · have hfalse : citesB f rpath = false := (citesB_false_iff f rpath).mpr ⟨hnin, hnex⟩
    have hwf := publish_rem_wf s1 f mnt dentry rpath
      { rpath with rexch := rfs_chain_add rpath.rexch f } (s1.pathsNr f + 1)
      hK1 hN1 hfind1 rfl rfl
      (by rw [citesB_add_exc_target, hfalse]; simp)
      (fun g hg => citesB_add_exc_ne hg)
    exact ⟨hwf.1,
      allPaths_rem _ (allPaths_update hnd1 (pathNodup_add_exc hndp hnex)), hwf.2⟩

theorem rem_include_tail_wf (e : Env) (s1 : RState) (f mnt dentry : Nat)
    (rpath p' : RfsPath) (nr' : Int)
    (hK1 : KeyUnique s1) (hnd1 : ChainsNodup s1) (hN1 : NrOK s1)
    (hfind1 : rfs_path_find s1 mnt dentry = some rpath)
    (hndp : PathNodup rpath) (hDp : ChainsDisjointP rpath)
    (hop : rfs_path_rem_include e rpath f (s1.pathsNr f) = .ok (p', nr')) :
    KeyUnique (rfs_path_rem (rfs_path_publish s1 f p' nr') p') ∧
    ChainsNodup (rfs_path_rem (rfs_path_publish s1 f p' nr') p') ∧
    NrOK (rfs_path_rem (rfs_path_publish s1 f p' nr') p') := by
  rcases rem_include_ok_shape _ _ _ _ _ _ hop with
    ⟨rfl, rfl, hnot⟩ | ⟨c', hc', rfl, rfl, hmem⟩
  · have hwf := publish_rem_wf s1 f mnt dentry p' p' (s1.pathsNr f)
      hK1 hN1 hfind1 rfl rfl
      (by by_cases hc : citesB f p' = true <;> simp [hc])
      (fun g _ => rfl)
    exact ⟨hwf.1, allPaths_rem p' (allPaths_update hnd1 hndp), hwf.2⟩
  · have htrue : citesB f rpath = true := (citesB_true_iff f rpath).mpr (Or.inl hmem)
    have hfalse := citesB_rem_inc_target hc' hndp.1 (hDp f hmem)
    have hwf := publish_rem_wf s1 f mnt dentry rpath
      { rpath with rinch := c' } (s1.pathsNr f - 1)
      hK1 hN1 hfind1 rfl rfl
      (by rw [htrue, hfalse]; simp)
      (fun g hg => citesB_rem_inc_ne hc' hg)
    exact ⟨hwf.1,
      allPaths_rem _ (allPaths_update hnd1 (pathNodup_rem_inc hc' hndp)), hwf.2⟩

theorem rem_exclude_tail_wf (e : Env) (s1 : RState) (f mnt dentry : Nat)
    (rpath p' : RfsPath) (nr' : Int)
    (hK1 : KeyUnique s1) (hnd1 : ChainsNodup s1) (hN1 : NrOK s1)
    (hfind1 : rfs_path_find s1 mnt dentry = some rpath)
    (hndp : PathNodup rpath) (hDp : ChainsDisjointP rpath)
    (hop : rfs_path_rem_exclude e rpath f (s1.pathsNr f) = .ok (p', nr')) :
    KeyUnique (rfs_path_rem (rfs_path_publish s1 f p' nr') p') ∧
    ChainsNodup (rfs_path_rem (rfs_path_publish s1 f p' nr') p') ∧
    NrOK (rfs_path_rem (rfs_path_publish s1 f p' nr') p') := by
  rcases rem_exclude_ok_shape _ _ _ _ _ _ hop with
    ⟨rfl, rfl, hnot⟩ | ⟨c', hc', rfl, rfl, hmem⟩
  · have hwf := publish_rem_wf s1 f mnt dentry p' p' (s1.pathsNr f)
      hK1 hN1 hfind1 rfl rfl
      (by by_cases hc : citesB f p' = true <;> simp [hc])
      (fun g _ => rfl)
    exact ⟨hwf.1, allPaths_rem p' (allPaths_update hnd1 hndp), hwf.2⟩
  · have htrue : citesB f rpath = true := (citesB_true_iff f rpath).mpr (Or.inr hmem)
    have hin : f ∉ chainList rpath.rinch := fun hmem2 => hDp f hmem2 hmem
    have hfalse := citesB_rem_exc_target hc' hndp.2 hin
    have hwf := publish_rem_wf s1 f mnt dentry rpath
      { rpath with rexch := c' } (s1.pathsNr f - 1)
      hK1 hN1 hfind1 rfl rfl
      (by rw [htrue, hfalse]; simp)
      (fun g hg => citesB_rem_exc_ne hc' hg)
    exact ⟨hwf.1,
      allPaths_rem _ (allPaths_update hnd1 (pathNodup_rem_exc hc' hndp)), hwf.2⟩

/-- C7: on a well-formed registry (unique keys, disjoint duplicate-free
chains, and a `paths_nr` counter equal to the number of records citing
each filter), both `redirfs_add_path` and `redirfs_rem_path` — whatever
their arguments, environment or outcome — keep the keys unique, the
chains duplicate-free, and every filter's `paths_nr` counter equal to the
number of registered records whose include or exclude chain contains it:
a successful fresh registration increments the addressed filter's counter
together with its citation count, and a successful removal decrements
both. -/
theorem C7_paths_nr_matches_citations (e : Env) (s : RState)
    (f mnt dentry flags : Nat)
    (hK : KeyUnique s) (hD : ChainsDisjoint s) (hnd : ChainsNodup s) (hN : NrOK s) :
    (KeyUnique (redirfs_add_path e s f mnt dentry flags).2 ∧
     ChainsNodup (redirfs_add_path e s f mnt dentry flags).2 ∧
     NrOK (redirfs_add_path e s f mnt dentry flags).2) ∧
    (KeyUnique (redirfs_rem_path e s f mnt dentry).2 ∧
     ChainsNodup (redirfs_rem_path e s f mnt dentry).2 ∧
     NrOK (redirfs_rem_path e s f mnt dentry).2) := by
  constructor
  · by_cases h0 : flags = 0
    · have hres : (redirfs_add_path e s f mnt dentry flags).2 = s := by
        simp [redirfs_add_path, h0]
      rw [hres]; exact ⟨hK, hnd, hN⟩
    · cases hadd : rfs_path_add e s mnt dentry with
      | error e2 =>
        have hres : (redirfs_add_path e s f mnt dentry flags).2 = s := by
          simp [redirfs_add_path, h0, hadd]
        rw [hres]; exact ⟨hK, hnd, hN⟩
      | ok pr =>
        obtain ⟨rpath, s1⟩ := pr
        have hshape := rfs_path_add_ok_shape e s mnt dentry rpath s1 hadd
        have hK1 : KeyUnique s1 := by
          rcases hshape with ⟨_, rfl⟩ | ⟨hf0, hp, rfl⟩
          · exact hK
          · exact hp.symm ▸ keyUnique_append_fresh hK hf0
        have hnd1 : ChainsNodup s1 := by
          rcases hshape with ⟨_, rfl⟩ | ⟨hf0, hp, rfl⟩
          · exact hnd
          · exact hp.symm ▸ allPaths_append hnd (pathNodup_fresh mnt dentry _)
        have hN1 : NrOK s1 := by
          rcases hshape with ⟨_, rfl⟩ | ⟨hf0, hp, rfl⟩
          · exact hN
          · exact hp.symm ▸ nrOK_append_fresh mnt dentry _ hN
        have hfind1 : rfs_path_find s1 mnt dentry = some rpath := by
          rcases hshape with ⟨hf, rfl⟩ | ⟨hf0, hp, rfl⟩
          · exact hf
          · exact hp.symm ▸ find_append_fresh hf0
        have hndp : PathNodup rpath := by
          rcases hshape with ⟨hf, _⟩ | ⟨hf0, hp, _⟩
          · exact hnd rpath (List.mem_of_find?_eq_some hf)
          · exact hp.symm ▸ pathNodup_fresh mnt dentry _
        cases hop : (if flags = REDIRFS_PATH_INCLUDE then
            rfs_path_add_include e rpath f (s1.pathsNr f)
          else if flags = REDIRFS_PATH_EXCLUDE then
            rfs_path_add_exclude e rpath f (s1.pathsNr f)
          else .error .EINVAL) with
        | error e3 =>
          have hres : (redirfs_add_path e s f mnt dentry flags).2 =
              rfs_path_rem s1 rpath := by
            simp [redirfs_add_path, h0, hadd, hop]
          rw [hres]
          have hwf := rem_found_wf hK1 hN1 hfind1
          exact ⟨hwf.1, allPaths_rem rpath hnd1, hwf.2⟩
        | ok pr' =>
          obtain ⟨p', nr'⟩ := pr'
          have hres : (redirfs_add_path e s f mnt dentry flags).2 =
              rfs_path_rem (rfs_path_publish s1 f p' nr') p' := by
            simp [redirfs_add_path, h0, hadd, hop]
          rw [hres]
          by_cases h1 : flags = REDIRFS_PATH_INCLUDE
          · rw [if_pos h1] at hop
            exact add_include_tail_wf e s1 f mnt dentry rpath p' nr'
              hK1 hnd1 hN1 hfind1 hndp hop
          · rw [if_neg h1] at hop
            by_cases h2 : flags = REDIRFS_PATH_EXCLUDE
            · rw [if_pos h2] at hop
              exact add_exclude_tail_wf e s1 f mnt dentry rpath p' nr'
                hK1 hnd1 hN1 hfind1 hndp hop
            · rw [if_neg h2] at hop; cases hop
  · cases hfind : rfs_path_find s mnt dentry with
    | none =>
      have hres : (redirfs_rem_path e s f mnt dentry).2 = s := by
        simp [redirfs_rem_path, hfind]
      rw [hres]; exact ⟨hK, hnd, hN⟩
    | some rpath =>
      have hmem := List.mem_of_find?_eq_some hfind
      have hndp : PathNodup rpath := hnd rpath hmem
      have hDp : ChainsDisjointP rpath := hD rpath hmem
      by_cases h1 : rfs_chain_find rpath.rinch f ≠ -1
      · cases hop : rfs_path_rem_include e rpath f (s.pathsNr f) with
        | error e3 =>
          have hres : (redirfs_rem_path e s f mnt dentry).2 = rfs_path_rem s rpath := by
            simp [redirfs_rem_path, hfind, h1, hop]
          rw [hres]
          have hwf := rem_found_wf hK hN hfind
          exact ⟨hwf.1, allPaths_rem rpath hnd, hwf.2⟩
        | ok pr' =>
          obtain ⟨p', nr'⟩ := pr'
          have hres : (redirfs_rem_path e s f mnt dentry).2 =
              rfs_path_rem (rfs_path_publish s f p' nr') p' := by
            simp [redirfs_rem_path, hfind, h1, hop]
          rw [hres]
          exact rem_include_tail_wf e s f mnt dentry rpath p' nr'
            hK hnd hN hfind hndp hDp hop
      · by_cases h2 : rfs_chain_find rpath.rexch f ≠ -1
        · cases hop : rfs_path_rem_exclude e rpath f (s.pathsNr f) with
          | error e3 =>
            have hres : (redirfs_rem_path e s f mnt dentry).2 = rfs_path_rem s rpath := by
              simp [redirfs_rem_path, hfind, h1, h2, hop]
            rw [hres]
            have hwf := rem_found_wf hK hN hfind
            exact ⟨hwf.1, allPaths_rem rpath hnd, hwf.2⟩
          | ok pr' =>
            obtain ⟨p', nr'⟩ := pr'
            have hres : (redirfs_rem_path e s f mnt dentry).2 =
                rfs_path_rem (rfs_path_publish s f p' nr') p' := by
              simp [redirfs_rem_path, hfind, h1, h2, hop]
            rw [hres]
            exact rem_exclude_tail_wf e s f mnt dentry rpath p' nr'
              hK hnd hN hfind hndp hDp hop
        · have hres : (redirfs_rem_path e s f mnt dentry).2 = rfs_path_rem s rpath := by
            simp [redirfs_rem_path, hfind, h1, h2]
          rw [hres]
          have hwf := rem_found_wf hK hN hfind
          exact ⟨hwf.1, allPaths_rem rpath hnd, hwf.2⟩

def c7s : RState := ⟨[], fun _ => 0⟩

/-- C7 witness: starting from the empty well-formed registry, a concrete
registration keeps the counter invariant. -/
theorem C7_paths_nr_matches_citations_witness :
    (KeyUnique c7s ∧ ChainsDisjoint c7s ∧ ChainsNodup c7s ∧ NrOK c7s) ∧
    NrOK (redirfs_add_path envOK c7s 5 1 1 REDIRFS_PATH_INCLUDE).2 := by
  have hK : KeyUnique c7s := List.Pairwise.nil
  have hD : ChainsDisjoint c7s := fun p hp => absurd hp (List.not_mem_nil p)
  have hnd : ChainsNodup c7s := fun p hp => absurd hp (List.not_mem_nil p)
  have hN : NrOK c7s := fun _ => rfl
  exact ⟨⟨hK, hD, hnd, hN⟩,
    ((C7_paths_nr_matches_citations envOK c7s 5 1 1 1 hK hD hnd hN).1).2.2⟩

/-! ## Claim C5: add then remove round-trip -/

def c5s : RState := ⟨[⟨0, 1, 1, some [9], none⟩, ⟨2, 2, 2, some [9], none⟩,
  ⟨1, 3, 3, some [9], none⟩], fun g => if g = 9 then 3 else 0⟩

/-- C5 counterexample: in the reachable registry whose list order carries
ids [0, 2, 1], a fresh `add_path` for the pair (4,4) is assigned id 2 by
the buggy allocator — an id the path (2,2) already carries — so after the
round-trip removal, `get_path_by_id` on the new path's id still returns
the OLD path (2,2) instead of none. -/
theorem C5_roundtrip_counterexample :
    (redirfs_add_path envOK c5s 7 4 4 1).1 = .ok ⟨2, 4, 4, some [7], none⟩ ∧
    (redirfs_rem_path envOK (redirfs_add_path envOK c5s 7 4 4 1).2 7 4 4).1
      = .ok () ∧
    rfs_path_find_id
      (redirfs_rem_path envOK (redirfs_add_path envOK c5s 7 4 4 1).2 7 4 4).2 2
      = some ⟨2, 2, 2, some [9], none⟩ :=
  ⟨rfl, rfl, rfl⟩

theorem find?_key_append (l : List RfsPath) (mnt dentry : Nat) (p : RfsPath)
    (hl : ∀ q ∈ l, pathKeyEq q mnt dentry = false)
    (hk : pathKeyEq p mnt dentry = true) :
    (l ++ [p]).find? (fun q => pathKeyEq q mnt dentry) = some p := by
  rw [List.find?_append]
  have h0 : l.find? (fun q => pathKeyEq q mnt dentry) = none :=
    List.find?_eq_none.mpr (fun q hq => by simp [hl q hq])
  rw [h0]
  simp [List.find?, hk]

theorem rstate_with_paths (s : RState) (l : List RfsPath) :
    ({ s with paths := l } : RState).paths = l := rfl

theorem rfs_path_publish_paths (s : RState) (f : Nat) (p : RfsPath) (nr : Int) :
    (rfs_path_publish s f p nr).paths = (rfs_path_update s p).paths := rfl

theorem rfs_path_update_paths (s : RState) (p : RfsPath) :
    (rfs_path_update s p).paths =
      s.paths.map (fun q => if pathKeyEq q p.mnt p.dentry then p else q) := rfl

theorem rfs_path_find_eq (s : RState) (mnt dentry : Nat) :
    rfs_path_find s mnt dentry =
      s.paths.find? (fun p => pathKeyEq p mnt dentry) := rfl

theorem rfs_path_find_id_eq (s : RState) (i : Nat) :
    rfs_path_find_id s i = s.paths.find? (fun p => p.id == i) := rfl

theorem rfs_path_rem_paths_none (s : RState) (p : RfsPath)
    (h1 : p.rinch = none) (h2 : p.rexch = none) :
    (rfs_path_rem s p).paths =
      s.paths.eraseP (fun q => pathKeyEq q p.mnt p.dentry) := by
  unfold rfs_path_rem
  rw [if_neg (by simp [h1, h2])]

/-- C5 (amended): for every filter, mount and entry such that no Path for
the pair exists, and PROVIDED the id the allocator returns for the new
Path is not already carried by another registered Path (the single-pass
allocator bug can violate this — see the counterexample), a successful
`add_path` followed by `remove_path` on the returned handle empties both
of the Path's chains (removing the filter from the single occupied chain
yields the distinguished empty chain, and the other chain never existed),
restores the registry list exactly, and makes both the key lookup and
`get_path_by_id` on the Path's id return none. -/
theorem C5_roundtrip_amended (e1 e2 : Env) (s : RState) (f mnt dentry flags : Nat)
    (hfind : rfs_path_find s mnt dentry = none)
    (hid : ∀ q ∈ s.paths, q.id ≠ rfs_path_get_id s)
    (hflags : flags = REDIRFS_PATH_INCLUDE ∨ flags = REDIRFS_PATH_EXCLUDE)
    (ha1 : e1.pathAlloc = true) (ha2 : e1.rootAddErr = none)
    (ha3 : e1.addDirsErr = none) (ha4 : e1.chainAlloc = true)
    (ha5 : e1.rootAddIncErr = none) (ha6 : e1.rootAddExcErr = none)
    (hb1 : e2.chainAlloc = true) (hb2 : e2.rootRemIncErr = none)
    (hb3 : e2.rootRemExcErr = none) :
    ∃ P,
      (redirfs_add_path e1 s f mnt dentry flags).1 = .ok P ∧
      P.id = rfs_path_get_id s ∧
      rfs_chain_rem (if flags = REDIRFS_PATH_INCLUDE then P.rinch else P.rexch) f
        = .ok none ∧
      (if flags = REDIRFS_PATH_INCLUDE then P.rexch else P.rinch) = none ∧
      (redirfs_rem_path e2 (redirfs_add_path e1 s f mnt dentry flags).2
        f mnt dentry).1 = .ok () ∧
      (redirfs_rem_path e2 (redirfs_add_path e1 s f mnt dentry flags).2
        f mnt dentry).2.paths = s.paths ∧
      rfs_path_find (redirfs_rem_path e2 (redirfs_add_path e1 s f mnt dentry flags).2
        f mnt dentry).2 mnt dentry = none ∧
      rfs_path_find_id (redirfs_rem_path e2 (redirfs_add_path e1 s f mnt dentry flags).2
        f mnt dentry).2 P.id = none := by
  have hkeys := pathKey_false_of_find_none hfind
  have hcfind : rfs_chain_find (some [f] : Option Chain) f = 0 := by
    simp [rfs_chain_find, chainList, rfs_chain_find_go]
  have hcrem : rfs_chain_rem (some [f] : Option Chain) f = .ok none := by
    unfold rfs_chain_rem
    rw [if_pos (by simp [chainList])]
    simp [chainList]
  have hne : rfs_chain_find (some [f] : Option Chain) f ≠ -1 := by rw [hcfind]; omega
  rcases hflags with hfl | hfl <;> subst hfl
  · -- Include mode
    have h1 : rfs_path_add e1 s mnt dentry =
        .ok (rfs_path_alloc mnt dentry (rfs_path_get_id s),
          { s with paths := s.paths ++ [rfs_path_alloc mnt dentry (rfs_path_get_id s)] }) := by
      simp [rfs_path_add, hfind, ha1, ha2]
    have h2 : rfs_path_add_include e1 (rfs_path_alloc mnt dentry (rfs_path_get_id s)) f
        (({ s with paths := s.paths ++ [rfs_path_alloc mnt dentry (rfs_path_get_id s)] } :
          RState).pathsNr f) =
        .ok (⟨rfs_path_get_id s, mnt, dentry, some [f], none⟩, s.pathsNr f + 1) := by
      simp [rfs_path_add_include, rfs_path_add_dirs, ha3, ha4, ha5,
        rfs_chain_find, chainList, rfs_chain_find_go, rfs_chain_add, rfs_path_alloc]
    have hadd : redirfs_add_path e1 s f mnt dentry REDIRFS_PATH_INCLUDE =
        (.ok ⟨rfs_path_get_id s, mnt, dentry, some [f], none⟩,
          rfs_path_publish
            { s with paths := s.paths ++ [rfs_path_alloc mnt dentry (rfs_path_get_id s)] }
            f ⟨rfs_path_get_id s, mnt, dentry, some [f], none⟩ (s.pathsNr f + 1)) := by
      simp [redirfs_add_path, REDIRFS_PATH_INCLUDE, REDIRFS_PATH_EXCLUDE,
        h1, h2, rfs_path_rem]
    have hs1paths : (rfs_path_publish
        { s with paths := s.paths ++ [rfs_path_alloc mnt dentry (rfs_path_get_id s)] }
        f ⟨rfs_path_get_id s, mnt, dentry, some [f], none⟩ (s.pathsNr f + 1)).paths =
        s.paths ++ [⟨rfs_path_get_id s, mnt, dentry, some [f], none⟩] := by
      rw [rfs_path_publish_paths, rfs_path_update_paths, rstate_with_paths]
      have hm := map_update_decomp s.paths []
        (rfs_path_alloc mnt dentry (rfs_path_get_id s))
        ⟨rfs_path_get_id s, mnt, dentry, some [f], none⟩ mnt dentry
        hkeys (by simp) (by simp [pathKeyEq, rfs_path_alloc])
      simpa using hm
    have hfind2 : rfs_path_find (rfs_path_publish
        { s with paths := s.paths ++ [rfs_path_alloc mnt dentry (rfs_path_get_id s)] }
        f ⟨rfs_path_get_id s, mnt, dentry, some [f], none⟩ (s.pathsNr f + 1)) mnt dentry =
        some ⟨rfs_path_get_id s, mnt, dentry, some [f], none⟩ := by
      rw [rfs_path_find_eq, hs1paths]
      exact find?_key_append s.paths mnt dentry _ hkeys (by simp [pathKeyEq])
    have h3 : ∀ nr : Int, rfs_path_rem_include e2
        (⟨rfs_path_get_id s, mnt, dentry, some [f], none⟩ : RfsPath) f nr =
        .ok (⟨rfs_path_get_id s, mnt, dentry, none, none⟩, nr - 1) := by
      intro nr
      unfold rfs_path_rem_include
      rw [if_neg (by exact fun hc => hne hc)]
      rw [hb1]
      simp [hcrem, hb2]
    have hrem : redirfs_rem_path e2 (rfs_path_publish
        { s with paths := s.paths ++ [rfs_path_alloc mnt dentry (rfs_path_get_id s)] }
        f ⟨rfs_path_get_id s, mnt, dentry, some [f], none⟩ (s.pathsNr f + 1)) f mnt dentry =
        (.ok (), rfs_path_rem (rfs_path_publish (rfs_path_publish
          { s with paths := s.paths ++ [rfs_path_alloc mnt dentry (rfs_path_get_id s)] }
          f ⟨rfs_path_get_id s, mnt, dentry, some [f], none⟩ (s.pathsNr f + 1))
          f ⟨rfs_path_get_id s, mnt, dentry, none, none⟩
          ((rfs_path_publish
            { s with paths := s.paths ++ [rfs_path_alloc mnt dentry (rfs_path_get_id s)] }
            f ⟨rfs_path_get_id s, mnt, dentry, some [f], none⟩ (s.pathsNr f + 1)).pathsNr f - 1))
          ⟨rfs_path_get_id s, mnt, dentry, none, none⟩) := by
      simp [redirfs_rem_path, hfind2, hne, h3]
    have hupd2 : (rfs_path_publish (rfs_path_publish
        { s with paths := s.paths ++ [rfs_path_alloc mnt dentry (rfs_path_get_id s)] }
        f ⟨rfs_path_get_id s, mnt, dentry, some [f], none⟩ (s.pathsNr f + 1))
        f ⟨rfs_path_get_id s, mnt, dentry, none, none⟩
        ((rfs_path_publish
          { s with paths := s.paths ++ [rfs_path_alloc mnt dentry (rfs_path_get_id s)] }
          f ⟨rfs_path_get_id s, mnt, dentry, some [f], none⟩ (s.pathsNr f + 1)).pathsNr f - 1)).paths =
        s.paths ++ [⟨rfs_path_get_id s, mnt, dentry, none, none⟩] := by
      rw [rfs_path_publish_paths, rfs_path_update_paths, hs1paths]
      have hm := map_update_decomp s.paths []
        (⟨rfs_path_get_id s, mnt, dentry, some [f], none⟩ : RfsPath)
        (⟨rfs_path_get_id s, mnt, dentry, none, none⟩ : RfsPath) mnt dentry
        hkeys (by simp) (by simp [pathKeyEq])
      simpa using hm
    have hs2paths : (redirfs_rem_path e2 (redirfs_add_path e1 s f mnt dentry REDIRFS_PATH_INCLUDE).2
        f mnt dentry).2.paths = s.paths := by
      simp only [hadd, hrem]
      rw [rfs_path_rem_paths_none _ _ rfl rfl, hupd2]
      have hm := list_eraseP_decomp (fun q => pathKeyEq q mnt dentry) s.paths []
        (⟨rfs_path_get_id s, mnt, dentry, none, none⟩ : RfsPath)
        hkeys (by simp [pathKeyEq])
      simpa using hm
    refine ⟨⟨rfs_path_get_id s, mnt, dentry, some [f], none⟩,
      by simp only [hadd], rfl, ?_, ?_, ?_, hs2paths, ?_, ?_⟩
    · simpa [REDIRFS_PATH_INCLUDE] using hcrem
    · simp [REDIRFS_PATH_INCLUDE]
    · simp only [hadd, hrem]
    · rw [rfs_path_find_eq, hs2paths]
      rw [rfs_path_find_eq] at hfind
      exact hfind
    · rw [rfs_path_find_id_eq, hs2paths]
      exact List.find?_eq_none.mpr (fun q hq => by simp [hid q hq])
  · -- Exclude mode
    have h1 : rfs_path_add e1 s mnt dentry =
        .ok (rfs_path_alloc mnt dentry (rfs_path_get_id s),
          { s with paths := s.paths ++ [rfs_path_alloc mnt dentry (rfs_path_get_id s)] }) := by
      simp [rfs_path_add, hfind, ha1, ha2]
    have h2 : rfs_path_add_exclude e1 (rfs_path_alloc mnt dentry (rfs_path_get_id s)) f
        (({ s with paths := s.paths ++ [rfs_path_alloc mnt dentry (rfs_path_get_id s)] } :
          RState).pathsNr f) =
        .ok (⟨rfs_path_get_id s, mnt, dentry, none, some [f]⟩, s.pathsNr f + 1) := by
      simp [rfs_path_add_exclude, ha4, ha6,
        rfs_chain_find, chainList, rfs_chain_find_go, rfs_chain_add, rfs_path_alloc]
    have hadd : redirfs_add_path e1 s f mnt dentry REDIRFS_PATH_EXCLUDE =
        (.ok ⟨rfs_path_get_id s, mnt, dentry, none, some [f]⟩,
          rfs_path_publish
            { s with paths := s.paths ++ [rfs_path_alloc mnt dentry (rfs_path_get_id s)] }
            f ⟨rfs_path_get_id s, mnt, dentry, none, some [f]⟩ (s.pathsNr f + 1)) := by
      simp [redirfs_add_path, REDIRFS_PATH_INCLUDE, REDIRFS_PATH_EXCLUDE,
        h1, h2, rfs_path_rem]
    have hs1paths : (rfs_path_publish
        { s with paths := s.paths ++ [rfs_path_alloc mnt dentry (rfs_path_get_id s)] }
        f ⟨rfs_path_get_id s, mnt, dentry, none, some [f]⟩ (s.pathsNr f + 1)).paths =
        s.paths ++ [⟨rfs_path_get_id s, mnt, dentry, none, some [f]⟩] := by
      rw [rfs_path_publish_paths, rfs_path_update_paths, rstate_with_paths]
      have hm := map_update_decomp s.paths []
        (rfs_path_alloc mnt dentry (rfs_path_get_id s))
        ⟨rfs_path_get_id s, mnt, dentry, none, some [f]⟩ mnt dentry
        hkeys (by simp) (by simp [pathKeyEq, rfs_path_alloc])
      simpa using hm
    have hfind2 : rfs_path_find (rfs_path_publish
        { s with paths := s.paths ++ [rfs_path_alloc mnt dentry (rfs_path_get_id s)] }
        f ⟨rfs_path_get_id s, mnt, dentry, none, some [f]⟩ (s.pathsNr f + 1)) mnt dentry =
        some ⟨rfs_path_get_id s, mnt, dentry, none, some [f]⟩ := by
      rw [rfs_path_find_eq, hs1paths]
      exact find?_key_append s.paths mnt dentry _ hkeys (by simp [pathKeyEq])
    have h3 : ∀ nr : Int, rfs_path_rem_exclude e2
        (⟨rfs_path_get_id s, mnt, dentry, none, some [f]⟩ : RfsPath) f nr =
        .ok (⟨rfs_path_get_id s, mnt, dentry, none, none⟩, nr - 1) := by
      intro nr
      unfold rfs_path_rem_exclude
      rw [if_neg (by exact fun hc => hne hc)]
      rw [hb1]
      simp [hcrem, hb3]
    have hrem : redirfs_rem_path e2 (rfs_path_publish
        { s with paths := s.paths ++ [rfs_path_alloc mnt dentry (rfs_path_get_id s)] }
        f ⟨rfs_path_get_id s, mnt, dentry, none, some [f]⟩ (s.pathsNr f + 1)) f mnt dentry =
        (.ok (), rfs_path_rem (rfs_path_publish (rfs_path_publish
          { s with paths := s.paths ++ [rfs_path_alloc mnt dentry (rfs_path_get_id s)] }
          f ⟨rfs_path_get_id s, mnt, dentry, none, some [f]⟩ (s.pathsNr f + 1))
          f ⟨rfs_path_get_id s, mnt, dentry, none, none⟩
          ((rfs_path_publish
            { s with paths := s.paths ++ [rfs_path_alloc mnt dentry (rfs_path_get_id s)] }
            f ⟨rfs_path_get_id s, mnt, dentry, none, some [f]⟩ (s.pathsNr f + 1)).pathsNr f - 1))
          ⟨rfs_path_get_id s, mnt, dentry, none, none⟩) := by
      simp [redirfs_rem_path, hfind2, hne, h3, rfs_chain_find, chainList,
        rfs_chain_find_go]
    have hupd2 : (rfs_path_publish (rfs_path_publish
        { s with paths := s.paths ++ [rfs_path_alloc mnt dentry (rfs_path_get_id s)] }
        f ⟨rfs_path_get_id s, mnt, dentry, none, some [f]⟩ (s.pathsNr f + 1))
        f ⟨rfs_path_get_id s, mnt, dentry, none, none⟩
        ((rfs_path_publish
          { s with paths := s.paths ++ [rfs_path_alloc mnt dentry (rfs_path_get_id s)] }
          f ⟨rfs_path_get_id s, mnt, dentry, none, some [f]⟩ (s.pathsNr f + 1)).pathsNr f - 1)).paths =
        s.paths ++ [⟨rfs_path_get_id s, mnt, dentry, none, none⟩] := by
      rw [rfs_path_publish_paths, rfs_path_update_paths, hs1paths]
      have hm := map_update_decomp s.paths []
        (⟨rfs_path_get_id s, mnt, dentry, none, some [f]⟩ : RfsPath)
        (⟨rfs_path_get_id s, mnt, dentry, none, none⟩ : RfsPath) mnt dentry
        hkeys (by simp) (by simp [pathKeyEq])
      simpa using hm
    have hs2paths : (redirfs_rem_path e2 (redirfs_add_path e1 s f mnt dentry REDIRFS_PATH_EXCLUDE).2
        f mnt dentry).2.paths = s.paths := by
      simp only [hadd, hrem]
      rw [rfs_path_rem_paths_none _ _ rfl rfl, hupd2]
      have hm := list_eraseP_decomp (fun q => pathKeyEq q mnt dentry) s.paths []
        (⟨rfs_path_get_id s, mnt, dentry, none, none⟩ : RfsPath)
        hkeys (by simp [pathKeyEq])
      simpa using hm
    refine ⟨⟨rfs_path_get_id s, mnt, dentry, none, some [f]⟩,
      by simp only [hadd], rfl, ?_, ?_, ?_, hs2paths, ?_, ?_⟩
    · simpa [REDIRFS_PATH_INCLUDE, REDIRFS_PATH_EXCLUDE] using hcrem
    · simp [REDIRFS_PATH_INCLUDE, REDIRFS_PATH_EXCLUDE]
    · simp only [hadd, hrem]
    · rw [rfs_path_find_eq, hs2paths]
      rw [rfs_path_find_eq] at hfind
      exact hfind
    · rw [rfs_path_find_id_eq, hs2paths]
      exact List.find?_eq_none.mpr (fun q hq => by simp [hid q hq])

def c5w : RState := ⟨[], fun _ => 0⟩

/-- C5 witness: the round-trip on the empty registry for filter 1 at the
fresh pair (2,3), in Include mode. -/
theorem C5_roundtrip_amended_witness :
    rfs_path_find c5w 2 3 = none ∧
    (∀ q ∈ c5w.paths, q.id ≠ rfs_path_get_id c5w) ∧
    ∃ P,
      (redirfs_add_path envOK c5w 1 2 3 REDIRFS_PATH_INCLUDE).1 = .ok P ∧
      P.id = rfs_path_get_id c5w ∧
      rfs_chain_rem (if REDIRFS_PATH_INCLUDE = REDIRFS_PATH_INCLUDE
        then P.rinch else P.rexch) 1 = .ok none ∧
      (if REDIRFS_PATH_INCLUDE = REDIRFS_PATH_INCLUDE
        then P.rexch else P.rinch) = none ∧
      (redirfs_rem_path envOK (redirfs_add_path envOK c5w 1 2 3
        REDIRFS_PATH_INCLUDE).2 1 2 3).1 = .ok () ∧
      (redirfs_rem_path envOK (redirfs_add_path envOK c5w 1 2 3
        REDIRFS_PATH_INCLUDE).2 1 2 3).2.paths = c5w.paths ∧
      rfs_path_find (redirfs_rem_path envOK (redirfs_add_path envOK c5w 1 2 3
        REDIRFS_PATH_INCLUDE).2 1 2 3).2 2 3 = none ∧
      rfs_path_find_id (redirfs_rem_path envOK (redirfs_add_path envOK c5w 1 2 3
        REDIRFS_PATH_INCLUDE).2 1 2 3).2 P.id = none :=
  ⟨rfl, by simp [c5w],
    C5_roundtrip_amended envOK envOK c5w 1 2 3 REDIRFS_PATH_INCLUDE rfl
      (by simp [c5w]) (Or.inl rfl) rfl rfl rfl rfl rfl rfl rfl rfl rfl⟩

/-! ## Claim C2 infrastructure: phase traces of the rename propagation -/

theorem chainList_diff (a b : Option Chain) :
    chainList (rfs_chain_diff a b) = specDiff (chainList a) (chainList b) := by
  unfold rfs_chain_diff specDiff
  cases h : (chainList a).filter (fun f => !((chainList b).contains f)) with
  | nil => simp [chainList, h]
  | cons x xs => simp [chainList, h]

theorem specDiff_nil_right (l : List Nat) : specDiff l [] = l := by
  unfold specDiff
  simp

theorem fsrename_rem_rroot_go_spec (e : Env) (r : Nat) :
    ∀ (l : List Nat) (rv : Except Err Unit) (t : List REv),
      rfs_fsrename_rem_rroot_go e r l = (rv, t) →
      (∀ ev ∈ t, isRemEv ev = true) ∧ (rv = .ok () → detachedFlts t = l) := by
  intro l
  induction l with
  | nil =>
    intro rv t h
    cases h
    exact ⟨by simp, fun _ => rfl⟩
  | cons f fs ih =>
    intro rv t h
    unfold rfs_fsrename_rem_rroot_go at h
    cases hre : e.rootRemFltErr with
    | some err =>
      rw [hre] at h
      cases h
      refine ⟨?_, fun hc => by cases hc⟩
      intro ev hev
      rw [List.mem_singleton] at hev
      subst hev
      rfl
    | none =>
      rw [hre] at h
      cases hwe : e.walkRemErr with
      | some err =>
        rw [hwe] at h
        cases h
        refine ⟨?_, fun hc => by cases hc⟩
        intro ev hev
        rcases List.mem_cons.mp hev with rfl | hev
        · rfl
        · rw [List.mem_singleton] at hev; subst hev; rfl
      | none =>
        rw [hwe] at h
        cases hgo : rfs_fsrename_rem_rroot_go e r fs with
        | mk rv2 tr =>
          rw [hgo] at h
          cases h
          obtain ⟨hall, hok⟩ := ih rv tr hgo
          constructor
          · intro ev hev
            rcases List.mem_cons.mp hev with rfl | hev
            · rfl
            · rcases List.mem_cons.mp hev with rfl | hev
              · rfl
              · exact hall ev hev
          · intro hc
            simp only [detachedFlts]
            rw [hok hc]

theorem fsrename_add_rroot_go_spec (e : Env) (r : Nat) :
    ∀ (l : List Nat) (rv : Except Err Unit) (t : List REv),
      rfs_fsrename_add_rroot_go e r l = (rv, t) →
      (∀ ev ∈ t, isAddEv ev = true) ∧ (rv = .ok () → attachedFlts t = l) := by
  intro l
  induction l with
  | nil =>
    intro rv t h
    cases h
    exact ⟨by simp, fun _ => rfl⟩
  | cons f fs ih =>
    intro rv t h
    unfold rfs_fsrename_add_rroot_go at h
    cases hre : e.rootAddFltErr with
    | some err =>
      rw [hre] at h
      cases h
      refine ⟨?_, fun hc => by cases hc⟩
      intro ev hev
      rw [List.mem_singleton] at hev
      subst hev
      rfl
    | none =>
      rw [hre] at h
      cases hwe : e.walkAddErr with
      | some err =>
        rw [hwe] at h
        cases h
        refine ⟨?_, fun hc => by cases hc⟩
        intro ev hev
        rcases List.mem_cons.mp hev with rfl | hev
        · rfl
        · rw [List.mem_singleton] at hev; subst hev; rfl
      | none =>
        rw [hwe] at h
        cases hgo : rfs_fsrename_add_rroot_go e r fs with
        | mk rv2 tr =>
          rw [hgo] at h
          cases h
          obtain ⟨hall, hok⟩ := ih rv tr hgo
          constructor
          · intro ev hev
            rcases List.mem_cons.mp hev with rfl | hev
            · rfl
            · rcases List.mem_cons.mp hev with rfl | hev
              · rfl
              · exact hall ev hev
          · intro hc
            simp only [attachedFlts]
            rw [hok hc]

theorem fsrename_rem_dentry_go_spec (e : Env) (d : Nat) :
    ∀ (l : List Nat) (c : Option Chain) (rv : Except Err Unit) (t : List REv),
      rfs_fsrename_rem_dentry_go e d c l = (rv, t) →
      (∀ ev ∈ t, isRemEv ev = true) ∧ (rv = .ok () → detachedFlts t = l) := by
  intro l
  induction l with
  | nil =>
    intro c rv t h
    cases h
    exact ⟨by simp, fun _ => rfl⟩
  | cons f fs ih =>
    intro c rv t h
    unfold rfs_fsrename_rem_dentry_go at h
    split at h
    · cases h
      exact ⟨by simp, fun hc => by cases hc⟩
    · split at h
      · cases h
        exact ⟨by simp, fun hc => by cases hc⟩
      · next rchnew heq =>
        split at h
        · cases h
          exact ⟨by simp, fun hc => by cases hc⟩
        · split at h
          · cases h
            refine ⟨?_, fun hc => by cases hc⟩
            intro ev hev
            rw [List.mem_singleton] at hev
            subst hev
            rfl
          · split at h
            · next rv2 tr heq3 =>
              cases h
              obtain ⟨hall, hok⟩ := ih rchnew _ _ heq3
              constructor
              · intro ev hev
                rcases List.mem_cons.mp hev with rfl | hev
                · rfl
                · exact hall ev hev
              · intro hc
                simp only [detachedFlts]
                rw [hok hc]

theorem fsrename_add_dentry_go_spec (e : Env) (d : Nat) :
    ∀ (l : List Nat) (c : Option Chain) (rv : Except Err Unit) (t : List REv),
      rfs_fsrename_add_dentry_go e d c l = (rv, t) →
      (∀ ev ∈ t, isAddEv ev = true) ∧ (rv = .ok () → attachedFlts t = l) := by
  intro l
  induction l with
  | nil =>
    intro c rv t h
    cases h
    exact ⟨by simp, fun _ => rfl⟩
  | cons f fs ih =>
    intro c rv t h
    unfold rfs_fsrename_add_dentry_go at h
    split at h
    · cases h
      exact ⟨by simp, fun hc => by cases hc⟩
    · split at h
      · cases h
        exact ⟨by simp, fun hc => by cases hc⟩
      · split at h
        · cases h
          refine ⟨?_, fun hc => by cases hc⟩
          intro ev hev
          rw [List.mem_singleton] at hev
          subst hev
          rfl
        · split at h
          · next rv2 tr heq3 =>
            cases h
            obtain ⟨hall, hok⟩ := ih (rfs_chain_add c f) _ _ heq3
            constructor
            · intro ev hev
              rcases List.mem_cons.mp hev with rfl | hev
              · rfl
              · exact hall ev hev
            · intro hc
              simp only [attachedFlts]
              rw [hok hc]

theorem fsrename_set_go_events (e : Env) (d : Nat) (cs cd : Option Chain) :
    ∀ (l : List Nat) (rv : Except Err Unit) (t : List REv),
      rfs_fsrename_set_go e d cs cd l = (rv, t) →
      ∀ ev ∈ t, isSetEv ev = true := by
  intro l
  induction l with
  | nil =>
    intro rv t h
    cases h
    simp
  | cons f fs ih =>
    intro rv t h
    unfold rfs_fsrename_set_go at h
    split at h
    · exact ih rv t h
    · split at h
      · cases h
        simp
      · split at h
        · cases h
          intro ev hev
          rw [List.mem_singleton] at hev
          subst hev
          rfl
        · split at h
          · next rv2 tr heq3 =>
            cases h
            intro ev hev
            rcases List.mem_cons.mp hev with rfl | hev
            · rfl
            · exact ih _ _ heq3 ev hev

theorem detachedFlts_nil : detachedFlts [] = [] := rfl

theorem attachedFlts_append (t1 t2 : List REv) :
    attachedFlts (t1 ++ t2) = attachedFlts t1 ++ attachedFlts t2 := by
  induction t1 with
  | nil => rfl
  | cons ev t ih => cases ev <;> simp [attachedFlts, ih]

theorem fsrename_rem_dentry_ok (e : Env) (rroot : RfsRootR) (rchain : Option Chain)
    (d : Nat) (t : List REv)
    (h : rfs_fsrename_rem_dentry e rroot rchain d = (.ok (), t)) :
    detachedFlts t = chainList rchain ∧ ∀ ev ∈ t, isRemEv ev = true := by
  unfold rfs_fsrename_rem_dentry at h
  cases rchain with
  | none =>
    cases h
    exact ⟨rfl, by simp⟩
  | some l =>
    obtain ⟨hall, hok⟩ := fsrename_rem_dentry_go_spec e d l _ _ _ h
    exact ⟨hok rfl, hall⟩

theorem fsrename_rem_rroot_ok (e : Env) (rroot : RfsRootR) (rchain : Option Chain)
    (t : List REv)
    (h : rfs_fsrename_rem_rroot e rroot rchain = (.ok (), t)) :
    detachedFlts t = chainList rchain ∧ ∀ ev ∈ t, isRemEv ev = true := by
  unfold rfs_fsrename_rem_rroot at h
  obtain ⟨hall, hok⟩ := fsrename_rem_rroot_go_spec e rroot.ptr _ _ _ h
  exact ⟨hok rfl, hall⟩

theorem fsrename_rem_ok (e : Env) (rsrc rdst : Option RfsRootR) (d : Nat)
    (t : List REv)
    (h : rfs_fsrename_rem e rsrc rdst d = (.ok (), t)) :
    detachedFlts t
      = specDiff (chainList (optRootChain rsrc)) (chainList (optRootChain rdst)) ∧
    ∀ ev ∈ t, isRemEv ev = true := by
  unfold rfs_fsrename_rem at h
  split at h
  · cases h
    exact ⟨by simp [optRootChain, chainList, specDiff, detachedFlts], by simp⟩
  · next rsrc' =>
    split at h
    · cases h
    · next rchain heq =>
      have hcl : chainList rchain
          = specDiff (chainList (optRootChain (some rsrc')))
              (chainList (optRootChain rdst)) := by
        cases rdst with
        | none =>
          cases heq
          simp [optRootChain, rfs_chain_get, chainList, specDiff, specDiff_nil_right]
        | some rdst' =>
          by_cases hca : e.chainAlloc
          · simp only [hca, Bool.not_true, Bool.false_eq_true, if_false] at heq
            cases heq
            simp [optRootChain, chainList_diff]
          · simp only [Bool.not_eq_true] at hca
            simp [hca] at heq
      rw [← hcl]
      split at h
      · exact fsrename_rem_rroot_ok e rsrc' rchain t h
      · exact fsrename_rem_dentry_ok e rsrc' rchain d t h

theorem fsrename_add_rroot_ok (e : Env) (rroot : RfsRootR) (rchain : Option Chain)
    (t : List REv)
    (h : rfs_fsrename_add_rroot e rroot rchain = (.ok (), t)) :
    attachedFlts t = chainList rchain ∧ ∀ ev ∈ t, isAddEv ev = true := by
  unfold rfs_fsrename_add_rroot at h
  obtain ⟨hall, hok⟩ := fsrename_add_rroot_go_spec e rroot.ptr _ _ _ h
  exact ⟨hok rfl, hall⟩

theorem fsrename_add_dentry_ok (e : Env) (st : RenSt) (rroot : RfsRootR)
    (rchain : Option Chain) (d : Nat) (t : List REv)
    (h : rfs_fsrename_add_dentry e st rroot rchain d = (.ok (), t)) :
    attachedFlts t = chainList rchain ∧ ∀ ev ∈ t, isAddEv ev = true := by
  cases rchain with
  | none =>
    simp only [rfs_fsrename_add_dentry] at h
    cases hre : e.infoResetErr with
    | some err => rw [hre] at h; cases h
    | none =>
      rw [hre] at h
      cases h
      refine ⟨rfl, ?_⟩
      intro ev hev
      rw [List.mem_singleton] at hev
      subst hev
      rfl
  | some l =>
    simp only [rfs_fsrename_add_dentry] at h
    cases hgo : rfs_fsrename_add_dentry_go e d
        (match rfs_dentry_find st d with
          | some rd => rfs_chain_get rd.rinfo.rchain
          | none => none) l with
    | mk rv2 tr =>
      rw [hgo] at h
      cases rv2 with
      | error err => cases h
      | ok val =>
        cases val
        obtain ⟨hall, hok⟩ := fsrename_add_dentry_go_spec e d l _ _ _ hgo
        cases hre : e.infoResetErr with
        | some err => rw [hre] at h; cases h
        | none =>
          rw [hre] at h
          cases h
          constructor
          · rw [attachedFlts_append, hok rfl]
            simp [attachedFlts, chainList]
          · intro ev hev
            rcases List.mem_append.mp hev with hev | hev
            · exact hall ev hev
            · rw [List.mem_singleton] at hev; subst hev; rfl

theorem fsrename_add_ok (e : Env) (st : RenSt) (rsrc rdst : Option RfsRootR)
    (d : Nat) (t : List REv)
    (h : rfs_fsrename_add e st rsrc rdst d = (.ok (), t)) :
    attachedFlts t
      = specDiff (chainList (optRootChain rdst)) (chainList (optRootChain rsrc)) ∧
    ∀ ev ∈ t, isAddEv ev = true := by
  unfold rfs_fsrename_add at h
  split at h
  · cases h
    exact ⟨by simp [optRootChain, chainList, specDiff, attachedFlts], by simp⟩
  · next rdst' =>
    split at h
    · cases h
    · next rchain heq =>
      have hcl : chainList rchain
          = specDiff (chainList (optRootChain (some rdst')))
              (chainList (optRootChain rsrc)) := by
        cases rsrc with
        | none =>
          cases heq
          simp [optRootChain, rfs_chain_get, chainList, specDiff_nil_right]
        | some rsrc' =>
          by_cases hca : e.chainAlloc
          · simp only [hca, Bool.not_true, Bool.false_eq_true, if_false] at heq
            cases heq
            simp [optRootChain, chainList_diff]
          · simp only [Bool.not_eq_true] at hca
            simp [hca] at heq
      rw [← hcl]
      split at h
      · next rsrc' =>
        split at h
        · exact fsrename_add_rroot_ok e rsrc' rchain t h
        · exact fsrename_add_dentry_ok e st rdst' rchain d t h
      · exact fsrename_add_dentry_ok e st rdst' rchain d t h

theorem fsrename_set_events (e : Env) (st : RenSt) (rsrc rdst : Option RfsRootR)
    (d : Nat) (rv : Except Err Unit) (t : List REv)
    (h : rfs_fsrename_set e st rsrc rdst d = (rv, t)) :
    ∀ ev ∈ t, isSetEv ev = true := by
  unfold rfs_fsrename_set at h
  split at h
  · split at h
    · cases h; simp
    · split at h
      · cases h; simp
      · exact fsrename_set_go_events e d _ _ _ _ _ h
  · cases h; simp

/-- C2: on a rename between distinct parents whose effective roots differ,
`rfs_fsrename` makes its external calls in three ordered phases: first the
remove phase, detaching exactly diff(src chain, dst chain); then the set
phase; then the add phase, attaching exactly diff(dst chain, src chain),
with the phases fully serialized in the trace. -/
theorem C2_rename_three_ordered_phases (e : Env) (st : RenSt)
    (old_dir old_dentry new_dir : Nat) (rinode : RfsInodeR) (tr : List REv)
    (hri : rfs_inode_find st new_dir = some rinode)
    (hod : old_dir ≠ new_dir)
    (hroots : rootPtrEq (renameSrcRoot st old_dentry) (dstRootOf rinode) = false)
    (hok : rfs_fsrename e st old_dir old_dentry new_dir = some (.ok (), tr)) :
    ∃ t1 t2 t3, tr = t1 ++ t2 ++ t3 ∧
      detachedFlts t1 = specDiff
        (chainList (optRootChain (renameSrcRoot st old_dentry)))
        (chainList (optRootChain (dstRootOf rinode))) ∧
      (∀ ev ∈ t1, isRemEv ev = true) ∧
      (∀ ev ∈ t2, isSetEv ev = true) ∧
      attachedFlts t3 = specDiff
        (chainList (optRootChain (dstRootOf rinode)))
        (chainList (optRootChain (renameSrcRoot st old_dentry))) ∧
      (∀ ev ∈ t3, isAddEv ev = true) := by
  unfold rfs_fsrename at hok
  rw [if_neg hod, hri] at hok
  simp only [hroots, Bool.false_eq_true, if_false] at hok
  cases hrem : rfs_fsrename_rem e (renameSrcRoot st old_dentry)
      (dstRootOf rinode) old_dentry with
  | mk rv1 t1 =>
    rw [hrem] at hok
    cases rv1 with
    | error err => simp at hok
    | ok v1 =>
      cases v1
      cases hset : rfs_fsrename_set e st (renameSrcRoot st old_dentry)
          (dstRootOf rinode) old_dentry with
      | mk rv2 t2 =>
        rw [hset] at hok
        cases rv2 with
        | error err => simp at hok
        | ok v2 =>
          cases v2
          cases hadd : rfs_fsrename_add e st (renameSrcRoot st old_dentry)
              (dstRootOf rinode) old_dentry with
          | mk rv3 t3 =>
            rw [hadd] at hok
            have hfin : (some (rv3, t1 ++ t2 ++ t3) :
                Option (Except Err Unit × List REv)) = some (.ok (), tr) := hok
            injection hfin with hp
            injection hp with h1 h2
            subst h1
            obtain ⟨hd1, he1⟩ := fsrename_rem_ok e _ _ _ _ hrem
            have he2 := fsrename_set_events e st _ _ _ _ _ hset
            obtain ⟨hd3, he3⟩ := fsrename_add_ok e st _ _ _ _ hadd
            exact ⟨t1, t2, t3, h2.symm, hd1, he1, he2, hd3, he3⟩

/-- Concrete source root for the C2 witness: root object 1 at dentry 100
with effective chain `[1, 2]`. -/
def c2rsrc : RfsRootR := ⟨1, 100, some [1, 2]⟩

/-- Concrete destination root for the C2 witness: root object 2 at dentry
200 with effective chain `[2, 3]`. -/
def c2rdst : RfsRootR := ⟨2, 200, some [2, 3]⟩

/-- Per-inode cache record of the new parent in the C2 witness. -/
def c2rinode : RfsInodeR := ⟨⟨some [2, 3], c2rdst⟩⟩

/-- Cache state for the C2 witness: inode 50 under the destination root,
dentry 60 (the moved entry) under the source root. -/
def c2st : RenSt := ⟨[(50, c2rinode)], [(60, ⟨⟨some [1, 2], c2rsrc⟩⟩)]⟩

/-- The trace `rfs_fsrename` produces on the C2 witness input. -/
def c2tr : List REv :=
  [.infoRem 60 (some [2]) 1, .infoSet 60 (some [1, 2]) 2,
   .infoAdd 60 (some [1, 2, 3]) 3, .infoReset 2 60]

theorem C2_rename_three_ordered_phases_witness :
    rfs_inode_find c2st 50 = some c2rinode ∧
    (40 : Nat) ≠ 50 ∧
    rootPtrEq (renameSrcRoot c2st 60) (dstRootOf c2rinode) = false ∧
    rfs_fsrename envOK c2st 40 60 50 = some (.ok (), c2tr) ∧
    (∃ t1 t2 t3, c2tr = t1 ++ t2 ++ t3 ∧
      detachedFlts t1 = specDiff
        (chainList (optRootChain (renameSrcRoot c2st 60)))
        (chainList (optRootChain (dstRootOf c2rinode))) ∧
      (∀ ev ∈ t1, isRemEv ev = true) ∧
      (∀ ev ∈ t2, isSetEv ev = true) ∧
      attachedFlts t3 = specDiff
        (chainList (optRootChain (dstRootOf c2rinode)))
        (chainList (optRootChain (renameSrcRoot c2st 60))) ∧
      (∀ ev ∈ t3, isAddEv ev = true)) :=
  ⟨rfl, by decide, rfl, rfl,
    C2_rename_three_ordered_phases envOK c2st 40 60 50 c2rinode c2tr
      rfl (by decide) rfl rfl⟩
